import Mathlib

/-!
Shallow embedding of the CFG-editing core of `graph_x86.cc`
(`HGraph_X86::Dump`, `DeleteBlock`, `CreateLinkBetweenBlocks`,
`SplitCriticalEdgeAndUpdateLoopInformation`, `MovePhi`,
`MoveInstructionBefore`), together with theorems checking the
natural-language specification against it.

Blocks, instructions and loops are addressed by stable integer ids, as the
spec's design notes themselves suggest; the graph's block table is a list of
optional blocks (a `none` entry is a tombstone left by deletion).
-/

namespace GraphX86

/-- An instruction or phi record: identifying sequence number (`-1` =
unassigned), owning-block back-reference, phi/control-flow kind flags, the
use-list of (user id, operand index) pairs, and the environment-use list
(ids of environments' owners using this instruction). -/
structure Instruction where
  id : Int
  blockId : Option Nat
  isPhi : Bool
  isControlFlow : Bool
  uses : List (Nat × Nat)
  envUses : List Nat
deriving Repr, DecidableEq

/-- A basic block: ordered phi and instruction sequences (instruction ids),
successor and predecessor block-id sequences, immediate dominator, the list
of blocks it immediately dominates, and its loop-membership tag. -/
structure Block where
  phis : List Nat
  instructions : List Nat
  successors : List Nat
  predecessors : List Nat
  dominator : Option Nat
  dominated : List Nat
  loopInfo : Option Nat
deriving Repr, DecidableEq

/-- Per-loop aggregate: header block id, member block ids, enclosing loop. -/
structure LoopInfo where
  header : Nat
  blocks : List Nat
  parent : Option Nat
deriving Repr, DecidableEq

/-- The graph: block table indexed by block id (tombstones are `none`),
instruction table, loop-information table, reverse-post-order and
linear-order block sequences. -/
structure Graph where
  blocks : List (Option Block)
  insns : List (Nat × Instruction)
  loops : List (Nat × LoopInfo)
  reverse_post_order : List Nat
  linear_order : List Nat
deriving Repr, DecidableEq

def Graph.block? (g : Graph) (i : Nat) : Option Block :=
  g.blocks.getD i none

def Graph.setBlock (g : Graph) (i : Nat) (b : Block) : Graph :=
  { g with blocks := g.blocks.set i (some b) }

def Graph.clearBlock (g : Graph) (i : Nat) : Graph :=
  { g with blocks := g.blocks.set i none }

def Graph.updateBlock (g : Graph) (i : Nat) (f : Block → Block) : Graph :=
  match g.block? i with
  | some b => g.setBlock i (f b)
  | none => g

def Graph.insn? (g : Graph) (i : Nat) : Option Instruction :=
  g.insns.lookup i

def Graph.updateInsn (g : Graph) (i : Nat) (f : Instruction → Instruction) : Graph :=
  { g with insns := g.insns.map (fun p => cond (p.1 == i) (p.1, f p.2) p) }

def Graph.mapInsns (g : Graph) (f : Instruction → Instruction) : Graph :=
  { g with insns := g.insns.map (fun p => (p.1, f p.2)) }

def Graph.loop? (g : Graph) (l : Nat) : Option LoopInfo :=
  g.loops.lookup l

def Graph.updateLoop (g : Graph) (l : Nat) (f : LoopInfo → LoopInfo) : Graph :=
  { g with loops := g.loops.map (fun p => cond (p.1 == l) (p.1, f p.2) p) }

/-- `HBasicBlock::IsLoopHeader`: in a loop and that loop's header is this
block. -/
def Graph.isLoopHeader (g : Graph) (bid : Nat) : Bool :=
  match (g.block? bid).bind Block.loopInfo with
  | none => false
  | some l =>
    match g.loop? l with
    | none => false
    | some li => li.header == bid

/-! ## `HGraph_X86::Dump`

The loop `for (HBasicBlock* block : blocks_) { ... block->GetBlockId() ... }`
dereferences every entry of the block table unconditionally; dereferencing a
null (tombstone) entry is modelled as the `none` outcome.  A successful dump
yields, per table slot, the block's loop-information tag (the block id is the
slot position). -/

def dumpEntries : List (Option Block) → Option (List (Option Nat))
  | [] => some []
  | none :: _ => none
  | some b :: rest => (dumpEntries rest).map (b.loopInfo :: ·)

def Graph.dump (g : Graph) : Option (List (Option Nat)) :=
  dumpEntries g.blocks

/-! ## `HGraph_X86::DeleteBlock` -/

/-- Modelled from the spec: `RemoveAsUser` (declared outside the shown
source) detaches the instruction, as a user, from every use-list it
participates in: every use-list entry whose user is `u` is dropped. -/
def Graph.removeAsUser (g : Graph) (u : Nat) : Graph :=
  g.mapInsns (fun ins => { ins with uses := ins.uses.filter (fun p => p.1 != u) })

/-- Modelled from the spec: `RemoveFromEnvironmentUsers` (declared outside
the shown source) detaches the instruction from every environment-use list
it participates in. -/
def Graph.removeFromEnvironmentUsers (g : Graph) (u : Nat) : Graph :=
  g.mapInsns (fun ins => { ins with envUses := ins.envUses.filter (· != u) })

/-- Phase 1 of `DeleteBlock`: for every phi of the block (the iterator walks
the sequence as it stood at loop entry), detach it from use-lists and
environment-use lists, then remove it from the block's phi sequence
(`RemovePhi(..., false)`, modelled from the spec as removal from the
sequence without use-list safety updates). -/
def Graph.deletePhisPhase (g : Graph) (bid : Nat) (l : List Nat) : Graph :=
  l.foldl
    (fun g i =>
      ((g.removeAsUser i).removeFromEnvironmentUsers i).updateBlock bid
        (fun b => { b with phis := b.phis.erase i }))
    g

/-- Phase 2 of `DeleteBlock`: same for the ordinary instruction sequence
(`RemoveInstruction(..., false)`). -/
def Graph.deleteInsnsPhase (g : Graph) (bid : Nat) (l : List Nat) : Graph :=
  l.foldl
    (fun g i =>
      ((g.removeAsUser i).removeFromEnvironmentUsers i).updateBlock bid
        (fun b => { b with instructions := b.instructions.erase i }))
    g

/-- One iteration of `DeleteBlock`'s successor loop, at loop counter `j + 1`
(the body reads `successors[j]`): if the block still appears among that
successor's predecessors, remove it (`RemovePredecessor` removes the first
occurrence), then remove the successor from the block's successor sequence
(`RemoveSuccessor`, first occurrence). -/
def Graph.unlinkSuccStep (g : Graph) (bid : Nat) (j : Nat) : Graph :=
  match g.block? bid with
  | none => g
  | some b =>
    let s := b.successors.getD j 0
    let g1 :=
      match g.block? s with
      | some sb =>
        if bid ∈ sb.predecessors then
          g.setBlock s { sb with predecessors := sb.predecessors.erase bid }
        else g
      | none => g
    g1.updateBlock bid (fun b => { b with successors := b.successors.erase s })

/-- The successor loop `for (size_t j = successors.size(); j > 0; j--)`:
the counter is initialised once to the successor count and each iteration
reads `successors[j - 1]` of the current (shrinking) sequence. -/
def Graph.unlinkSuccessors : Graph → Nat → Nat → Graph
  | g, _, 0 => g
  | g, bid, j + 1 => (g.unlinkSuccStep bid j).unlinkSuccessors bid j

/-- `DeleteBlock` up to and including `ClearAllPredecessors` (modelled from
the spec: clear all of the block's own predecessor links), i.e. before the
block-table tombstone and the ordering removals.  The dangling block object
(as the C++ pointer would still see it) is observable here. -/
def Graph.deleteBlockUnlink (g : Graph) (bid : Nat) : Graph :=
  match g.block? bid with
  | none => g
  | some b =>
    let g1 := g.deletePhisPhase bid b.phis
    let g2 := g1.deleteInsnsPhase bid b.instructions
    let g3 := g2.unlinkSuccessors bid b.successors.length
    g3.updateBlock bid (fun b => { b with predecessors := [] })

/-- `HGraph_X86::DeleteBlock`: detach and remove all phis and instructions,
unlink successors and predecessors, tombstone the block-table slot
(`blocks_[id] = nullptr`), remove the block from reverse post order
(`RemoveElement`, modelled from the spec as first-occurrence removal), and
from the linear order only when that ordering is populated. -/
def Graph.deleteBlock (g : Graph) (bid : Nat) : Graph :=
  match g.block? bid with
  | none => g
  | some _ =>
    let g4 := g.deleteBlockUnlink bid
    let g5 := g4.clearBlock bid
    let g6 := { g5 with reverse_post_order := g5.reverse_post_order.erase bid }
    if g6.linear_order.length > 0 then
      { g6 with linear_order := g6.linear_order.erase bid }
    else g6

/-! ## `HGraph_X86::CreateLinkBetweenBlocks` -/

/-- Modelled from the spec: `HBasicBlock::AddSuccessor` (declared outside
the shown source) adds the single edge `a → b`, keeping the mutual-linkage
invariant: `b` is appended to `a`'s successors and `a` to `b`'s
predecessors. -/
def Graph.addSuccessor (g : Graph) (a b : Nat) : Graph :=
  (g.updateBlock a (fun blk => { blk with successors := blk.successors ++ [b] })).updateBlock
    b (fun blk => { blk with predecessors := blk.predecessors ++ [a] })

/-- Modelled from the spec: `MakeRoomFor(&v, n, index)` (declared outside
the shown source) opens `n` fresh slots immediately after position `index`,
shifting subsequent entries. -/
def makeRoomFor (l : List Nat) (index : Nat) : List Nat :=
  l.insertIdx (index + 1) 0

/-- `HGraph_X86::CreateLinkBetweenBlocks`: add the edge in the requested
direction; when a dominance relationship is requested, fix the domination
information exactly as the source does in each direction; then locate the
existing block in reverse post order (`IndexOfElement`, first occurrence)
and splice the added block in before or after it. -/
def Graph.createLinkBetweenBlocks (g : Graph) (existing added : Nat)
    (add_as_dominator add_after : Bool) : Graph :=
  let g1 :=
    if add_after then g.addSuccessor existing added
    else g.addSuccessor added existing
  let g2 :=
    if add_as_dominator then
      if add_after then
        (g1.updateBlock added (fun b => { b with dominator := some existing })).updateBlock
          existing (fun b => { b with dominated := b.dominated ++ [added] })
      else
        (g1.updateBlock existing (fun b => { b with dominator := some added })).updateBlock
          added (fun b => { b with dominated := b.dominated ++ [existing] })
    else g1
  let index := g2.reverse_post_order.indexOf existing
  let rpo1 := makeRoomFor g2.reverse_post_order index
  let rpo2 :=
    if add_after then rpo1.set (index + 1) added
    else (rpo1.set index added).set (index + 1) existing
  { g2 with reverse_post_order := rpo2 }

/-! ## `HGraph_X86::SplitCriticalEdgeAndUpdateLoopInformation` -/

/-- The freshly created splitter block sitting on the edge `fromB → toB`. -/
def splitterBlock (fromB toB : Nat) : Block :=
  { phis := [], instructions := [], successors := [toB], predecessors := [fromB],
    dominator := none, dominated := [], loopInfo := none }

/-- Modelled from the spec: `HGraph::SplitCriticalEdge` (declared outside
the shown source) performs the generic edge split: a fresh splitter block
(next free id, appended to the block table) is inserted with
`from → splitter → to`, taking exactly `from`'s slot in `to`'s predecessor
sequence and `to`'s slot in `from`'s successor sequence, preserving the
other entries' relative order. -/
def Graph.splitCriticalEdge (g : Graph) (fromB toB : Nat) : Graph :=
  let newId := g.blocks.length
  let g1 : Graph := { g with blocks := g.blocks ++ [some (splitterBlock fromB toB)] }
  let g2 := g1.updateBlock toB
    (fun b => { b with predecessors := b.predecessors.set (b.predecessors.indexOf fromB) newId })
  g2.updateBlock fromB
    (fun b => { b with successors := b.successors.set (b.successors.indexOf toB) newId })

/-- The nesting chain of a loop: the loop itself, then its enclosing loops,
innermost to outermost, cut off at dangling references (fuel bounds cyclic
parent chains). -/
def Graph.loopChainAux (g : Graph) : Nat → Option Nat → List Nat
  | 0, _ => []
  | _ + 1, none => []
  | fuel + 1, some l =>
    match g.loop? l with
    | none => []
    | some li => l :: g.loopChainAux fuel li.parent

def Graph.nestChain (g : Graph) (l : Nat) : List Nat :=
  g.loopChainAux (g.loops.length + 1) (some l)

/-- Modelled from the spec: `HLoopInformation_X86::AddToAll` (declared
outside the shown source) makes the block belong to the given loop context
(owning-block loop tag set to it) and registers the block as a member of
every loop in the context's nesting chain, innermost to outermost. -/
def Graph.addToAll (g : Graph) (l bid : Nat) : Graph :=
  let g1 := g.updateBlock bid (fun b => { b with loopInfo := some l })
  (g.nestChain l).foldl
    (fun g l' => g.updateLoop l' (fun li => { li with blocks := bid :: li.blocks })) g1

/-- `HGraph_X86::SplitCriticalEdgeAndUpdateLoopInformation`: remember `to`'s
predecessor index of `from`, split, recover the splitter at that index,
resolve the loop context (`from`'s loop when `to` is a loop header, else
`to`'s loop) and, when non-null, add the splitter to all loops of that
context's chain. -/
def Graph.splitCriticalEdgeAndUpdateLoopInformation (g : Graph) (fromB toB : Nat) : Graph :=
  let index :=
    match g.block? toB with
    | some b => b.predecessors.indexOf fromB
    | none => 0
  let g1 := g.splitCriticalEdge fromB toB
  let splitter :=
    match g1.block? toB with
    | some b => b.predecessors.getD index 0
    | none => 0
  let li :=
    if g1.isLoopHeader toB then (g1.block? fromB).bind Block.loopInfo
    else (g1.block? toB).bind Block.loopInfo
  match li with
  | none => g1
  | some l => g1.addToAll l splitter

/-! ## `HGraph_X86::MovePhi` -/

/-- `HGraph_X86::MovePhi`: no-op when the phi already lives in the target
block; otherwise remove it from the source block's phi sequence, append it
to the target block's phi sequence (`HInstructionList::AddInstruction`
appends, modelled from the spec), and reassign its owning-block
back-reference. -/
def Graph.movePhi (g : Graph) (p toB : Nat) : Graph :=
  match g.insn? p with
  | none => g
  | some pi =>
    match pi.blockId with
    | none => g
    | some fromB =>
      if fromB = toB then g
      else
        let g1 := g.updateBlock fromB (fun b => { b with phis := b.phis.erase p })
        let g2 := g1.updateBlock toB (fun b => { b with phis := b.phis ++ [p] })
        g2.updateInsn p (fun i => { i with blockId := some toB })

/-! ## `HGraph_X86::MoveInstructionBefore` -/

/-- Modelled from the spec: `HInstructionList::InsertInstructionBefore`
(declared outside the shown source) inserts the instruction immediately
preceding the cursor in the sequence. -/
def insertInstructionBefore (i c : Nat) : List Nat → List Nat
  | [] => [i]
  | x :: xs => if x = c then i :: x :: xs else x :: insertInstructionBefore i c xs

/-- `HGraph_X86::MoveInstructionBefore`.  Pointer arguments are `Option`
ids (`none` = null).  Every `DCHECK` of the source is an immediate,
non-recoverable assertion: its failure is the `none` outcome, never a
recoverable result.  A passing run detaches the instruction from the source
block's instruction sequence without touching use-lists
(`RemoveInstruction(..., false)`), reassigns its owning block, and inserts
it immediately before the cursor in the target block's sequence. -/
def Graph.moveInstructionBefore (g : Graph) (io co : Option Nat) : Option Graph :=
  match io with
  | none => none
  | some i =>
    match g.insn? i with
    | none => none
    | some ii =>
      match co with
      | none => none
      | some c =>
        match g.insn? c with
        | none => none
        | some ci =>
          if ci.isPhi then none
          else
            let fromB := ii.blockId
            let toB := ci.blockId
            if fromB = toB then none
            else if ii.id = -1 then none
            else if ci.id = -1 then none
            else if ii.isControlFlow then none
            else
              let g1 :=
                match fromB with
                | none => g
                | some fb =>
                  g.updateBlock fb (fun b => { b with instructions := b.instructions.erase i })
              let g2 := g1.updateInsn i (fun ins => { ins with blockId := toB })
              some (match toB with
                    | none => g2
                    | some tb =>
                      g2.updateBlock tb
                        (fun b =>
                          { b with instructions := insertInstructionBefore i c b.instructions }))

/-- The malformed-input classes guarded by `MoveInstructionBefore`'s
assertions: null instruction or cursor, a phi as cursor, a control-flow
instruction as the moved instruction, an unassigned (-1) identity on either,
or coinciding source and target blocks. -/
def Graph.malformedMove (g : Graph) (io co : Option Nat) : Prop :=
  io = none ∨ co = none ∨
  (∃ c ci, co = some c ∧ g.insn? c = some ci ∧ ci.isPhi = true) ∨
  (∃ i ii, io = some i ∧ g.insn? i = some ii ∧ ii.isControlFlow = true) ∨
  (∃ i ii, io = some i ∧ g.insn? i = some ii ∧ ii.id = -1) ∨
  (∃ c ci, co = some c ∧ g.insn? c = some ci ∧ ci.id = -1) ∨
  (∃ i ii c ci, io = some i ∧ co = some c ∧ g.insn? i = some ii ∧ g.insn? c = some ci ∧
    ii.blockId = ci.blockId)

/-- Instruction `u` participates in no use-list and no environment-use list. -/
def Graph.scrubbed (g : Graph) (u : Nat) : Prop :=
  ∀ j ins, g.insn? j = some ins → (∀ p ∈ ins.uses, p.1 ≠ u) ∧ u ∉ ins.envUses

/-- Mutual linkage: each edge is paired — a block occurs in another's
successor sequence exactly as often as the latter occurs in its
predecessor sequence. -/
def Graph.liveConsistent (g : Graph) : Prop :=
  ∀ a c ga gc, g.block? a = some ga → g.block? c = some gc →
    ga.successors.count c = gc.predecessors.count a

/-- Every entry of every block's predecessor sequence names a live block. -/
def Graph.predsLive (g : Graph) : Prop :=
  ∀ a ga, g.block? a = some ga → ∀ p ∈ ga.predecessors, (g.block? p).isSome = true

/-! ## Concrete graphs used by witnesses and counterexamples -/

def emptyBlock : Block :=
  { phis := [], instructions := [], successors := [], predecessors := [],
    dominator := none, dominated := [], loopInfo := none }

/-- Two blocks with the single mutual edge 0 → 1. -/
def twoBlockEdgeGraph : Graph :=
  { blocks := [some { emptyBlock with successors := [1] },
               some { emptyBlock with predecessors := [0] }],
    insns := [], loops := [], reverse_post_order := [0, 1], linear_order := [] }

/-- Two isolated blocks; only block 0 is in reverse post order. -/
def isolatedPairGraph : Graph :=
  { blocks := [some emptyBlock, some emptyBlock],
    insns := [], loops := [], reverse_post_order := [0], linear_order := [] }

/-- Three blocks with reverse post order [0, 2]; block 1 is detached. -/
def threeBlockRpoGraph : Graph :=
  { blocks := [some emptyBlock, some emptyBlock, some emptyBlock],
    insns := [], loops := [], reverse_post_order := [0, 2], linear_order := [] }

/-- A phi (id 20) living in block 0, with a user and an environment user. -/
def movePhiGraph : Graph :=
  { blocks := [some { emptyBlock with phis := [20] }, some emptyBlock],
    insns := [(20, { id := 20, blockId := some 0, isPhi := true, isControlFlow := false,
                     uses := [(21, 0)], envUses := [22] })],
    loops := [], reverse_post_order := [0, 1], linear_order := [] }

/-- Block 0 holds instructions [10, 11], block 1 holds [12, 13]. -/
def moveInsnGraph : Graph :=
  { blocks := [some { emptyBlock with instructions := [10, 11], successors := [1] },
               some { emptyBlock with instructions := [12, 13], predecessors := [0] }],
    insns := [(10, { id := 10, blockId := some 0, isPhi := false, isControlFlow := false,
                     uses := [(11, 0)], envUses := [] }),
              (11, { id := 11, blockId := some 0, isPhi := false, isControlFlow := false,
                     uses := [], envUses := [] }),
              (12, { id := 12, blockId := some 1, isPhi := false, isControlFlow := false,
                     uses := [], envUses := [] }),
              (13, { id := 13, blockId := some 1, isPhi := false, isControlFlow := false,
                     uses := [], envUses := [] })],
    loops := [], reverse_post_order := [0, 1], linear_order := [] }

/-- A two-level loop nest: loop 5 (header 2) nested in loop 6 (header 3);
block 0 sits in the inner loop and feeds the inner header 2 (a back edge),
block 1 is an outside predecessor of header 2. -/
def splitScenarioGraph : Graph :=
  { blocks := [some { emptyBlock with successors := [2], loopInfo := some 5 },
               some { emptyBlock with successors := [2] },
               some { emptyBlock with predecessors := [1, 0], loopInfo := some 5 },
               some { emptyBlock with loopInfo := some 6 }],
    insns := [],
    loops := [(5, { header := 2, blocks := [2, 0], parent := some 6 }),
              (6, { header := 3, blocks := [3, 2, 0], parent := none })],
    reverse_post_order := [1, 3, 2, 0], linear_order := [] }

/-- Block 0 holds one phi (30) and two instructions (31, 32), none used
outside; instruction 33 in block 1 carries use-list and environment-use
entries naming them. -/
def deleteScenarioGraph : Graph :=
  { blocks := [some { emptyBlock with
                      phis := [30], instructions := [31, 32], successors := [1] },
               some { emptyBlock with instructions := [33], predecessors := [0] }],
    insns := [(30, { id := 30, blockId := some 0, isPhi := true, isControlFlow := false,
                     uses := [], envUses := [] }),
              (31, { id := 31, blockId := some 0, isPhi := false, isControlFlow := false,
                     uses := [], envUses := [] }),
              (32, { id := 32, blockId := some 0, isPhi := false, isControlFlow := false,
                     uses := [], envUses := [] }),
              (33, { id := 33, blockId := some 1, isPhi := false, isControlFlow := false,
                     uses := [(31, 0), (40, 1), (30, 2)], envUses := [30, 32, 41] })],
    loops := [], reverse_post_order := [0, 1], linear_order := [] }

/-! ## Basic lemmas about the state accessors -/

theorem lookup_map_cond {α : Type} (j i : Nat) (l : List (Nat × α)) (f : α → α) :
    (l.map (fun p => cond (p.1 == i) (p.1, f p.2) p)).lookup j =
      if j = i then (l.lookup j).map f else l.lookup j := by
  induction l with
  | nil => simp [List.lookup]
  | cons p t ih =>
    rcases p with ⟨k, v⟩
    by_cases hpi : k = i
    · subst hpi
      by_cases hj : j = k
      · subst hj
        simp [List.lookup, ih]
      · have hb : (j == k) = false := by simp [hj]
        simp [List.lookup, hb, ih, hj]
    · have hb : (k == i) = false := by simp [hpi]
      by_cases hj : j = k
      · subst hj
        have hji : ¬ (j = i) := hpi
        simp [List.lookup, hb, hji]
      · have hb2 : (j == k) = false := by simp [hj]
        simp [List.lookup, hb, hb2, ih]

theorem lookup_map_val {α β : Type} (j : Nat) (l : List (Nat × α)) (f : α → β) :
    (l.map (fun p => (p.1, f p.2))).lookup j = (l.lookup j).map f := by
  induction l with
  | nil => rfl
  | cons p t ih =>
    by_cases h : j = p.1
    · simp [List.lookup, h]
    · have hb : (j == p.1) = false := by simp [h]
      simp [List.lookup, hb, ih]

theorem Graph.lt_length_of_block? {g : Graph} {i : Nat} {b : Block}
    (h : g.block? i = some b) : i < g.blocks.length := by
  by_contra hlt
  push_neg at hlt
  simp [Graph.block?, List.getD, List.getElem?_eq_none hlt] at h

@[simp] theorem Graph.block?_setBlock_self (g : Graph) (i : Nat) (b : Block)
    (h : i < g.blocks.length) : (g.setBlock i b).block? i = some b := by
  simp [Graph.setBlock, Graph.block?, List.getD, List.getElem?_set, h]

theorem Graph.block?_setBlock_ne (g : Graph) (i j : Nat) (b : Block) (h : i ≠ j) :
    (g.setBlock i b).block? j = g.block? j := by
  simp [Graph.setBlock, Graph.block?, List.getD, List.getElem?_set, h]

@[simp] theorem Graph.block?_clearBlock_self (g : Graph) (i : Nat)
    (h : i < g.blocks.length) : (g.clearBlock i).block? i = none := by
  simp [Graph.clearBlock, Graph.block?, List.getD, List.getElem?_set, h]

theorem Graph.block?_clearBlock_ne (g : Graph) (i j : Nat) (h : i ≠ j) :
    (g.clearBlock i).block? j = g.block? j := by
  simp [Graph.clearBlock, Graph.block?, List.getD, List.getElem?_set, h]

theorem Graph.updateBlock_of_none {g : Graph} {i : Nat} (f : Block → Block)
    (h : g.block? i = none) : g.updateBlock i f = g := by
  simp [Graph.updateBlock, h]

theorem Graph.block?_updateBlock_self {g : Graph} {i : Nat} {b : Block} (f : Block → Block)
    (h : g.block? i = some b) : (g.updateBlock i f).block? i = some (f b) := by
  simp [Graph.updateBlock, h, Graph.block?_setBlock_self _ _ _ (Graph.lt_length_of_block? h)]

theorem Graph.block?_updateBlock_ne (g : Graph) (i j : Nat) (f : Block → Block) (h : i ≠ j) :
    (g.updateBlock i f).block? j = g.block? j := by
  unfold Graph.updateBlock
  cases hb : g.block? i with
  | none => rfl
  | some b => exact Graph.block?_setBlock_ne _ _ _ _ h

@[simp] theorem Graph.updateBlock_insns (g : Graph) (i : Nat) (f : Block → Block) :
    (g.updateBlock i f).insns = g.insns := by
  unfold Graph.updateBlock; cases g.block? i <;> rfl

@[simp] theorem Graph.updateBlock_loops (g : Graph) (i : Nat) (f : Block → Block) :
    (g.updateBlock i f).loops = g.loops := by
  unfold Graph.updateBlock; cases g.block? i <;> rfl

@[simp] theorem Graph.updateBlock_rpo (g : Graph) (i : Nat) (f : Block → Block) :
    (g.updateBlock i f).reverse_post_order = g.reverse_post_order := by
  unfold Graph.updateBlock; cases g.block? i <;> rfl

@[simp] theorem Graph.updateBlock_linear (g : Graph) (i : Nat) (f : Block → Block) :
    (g.updateBlock i f).linear_order = g.linear_order := by
  unfold Graph.updateBlock; cases g.block? i <;> rfl

@[simp] theorem Graph.updateBlock_length (g : Graph) (i : Nat) (f : Block → Block) :
    (g.updateBlock i f).blocks.length = g.blocks.length := by
  unfold Graph.updateBlock
  cases g.block? i <;> simp [Graph.setBlock]

@[simp] theorem Graph.insn?_updateBlock (g : Graph) (i j : Nat) (f : Block → Block) :
    (g.updateBlock i f).insn? j = g.insn? j := by
  simp [Graph.insn?]

@[simp] theorem Graph.loop?_updateBlock (g : Graph) (i j : Nat) (f : Block → Block) :
    (g.updateBlock i f).loop? j = g.loop? j := by
  simp [Graph.loop?]

theorem Graph.insn?_updateInsn (g : Graph) (i j : Nat) (f : Instruction → Instruction) :
    (g.updateInsn i f).insn? j = if j = i then (g.insn? j).map f else g.insn? j :=
  lookup_map_cond j i g.insns f

theorem Graph.insn?_mapInsns (g : Graph) (j : Nat) (f : Instruction → Instruction) :
    (g.mapInsns f).insn? j = (g.insn? j).map f :=
  lookup_map_val j g.insns f

theorem Graph.loop?_updateLoop (g : Graph) (l j : Nat) (f : LoopInfo → LoopInfo) :
    (g.updateLoop l f).loop? j = if j = l then (g.loop? j).map f else g.loop? j :=
  lookup_map_cond j l g.loops f

@[simp] theorem Graph.block?_updateInsn (g : Graph) (i j : Nat) (f : Instruction → Instruction) :
    (g.updateInsn i f).block? j = g.block? j := rfl

@[simp] theorem Graph.block?_mapInsns (g : Graph) (j : Nat) (f : Instruction → Instruction) :
    (g.mapInsns f).block? j = g.block? j := rfl

@[simp] theorem Graph.block?_updateLoop (g : Graph) (l j : Nat) (f : LoopInfo → LoopInfo) :
    (g.updateLoop l f).block? j = g.block? j := rfl

@[simp] theorem Graph.loop?_updateInsn (g : Graph) (i j : Nat) (f : Instruction → Instruction) :
    (g.updateInsn i f).loop? j = g.loop? j := rfl

@[simp] theorem Graph.loop?_mapInsns (g : Graph) (j : Nat) (f : Instruction → Instruction) :
    (g.mapInsns f).loop? j = g.loop? j := rfl

@[simp] theorem Graph.insn?_updateLoop (g : Graph) (l j : Nat) (f : LoopInfo → LoopInfo) :
    (g.updateLoop l f).insn? j = g.insn? j := rfl

@[simp] theorem Graph.setBlock_length (g : Graph) (i : Nat) (b : Block) :
    (g.setBlock i b).blocks.length = g.blocks.length := by
  simp [Graph.setBlock]

@[simp] theorem Graph.clearBlock_length (g : Graph) (i : Nat) :
    (g.clearBlock i).blocks.length = g.blocks.length := by
  simp [Graph.clearBlock]

@[simp] theorem Graph.setBlock_insns (g : Graph) (i : Nat) (b : Block) :
    (g.setBlock i b).insns = g.insns := rfl

@[simp] theorem Graph.setBlock_loops (g : Graph) (i : Nat) (b : Block) :
    (g.setBlock i b).loops = g.loops := rfl

@[simp] theorem Graph.setBlock_rpo (g : Graph) (i : Nat) (b : Block) :
    (g.setBlock i b).reverse_post_order = g.reverse_post_order := rfl

@[simp] theorem Graph.setBlock_linear (g : Graph) (i : Nat) (b : Block) :
    (g.setBlock i b).linear_order = g.linear_order := rfl

@[simp] theorem Graph.clearBlock_insns (g : Graph) (i : Nat) :
    (g.clearBlock i).insns = g.insns := rfl

@[simp] theorem Graph.mapInsns_blocks (g : Graph) (f : Instruction → Instruction) :
    (g.mapInsns f).blocks = g.blocks := rfl

@[simp] theorem Graph.updateInsn_blocks (g : Graph) (i : Nat) (f : Instruction → Instruction) :
    (g.updateInsn i f).blocks = g.blocks := rfl

@[simp] theorem Graph.updateLoop_blocks (g : Graph) (l : Nat) (f : LoopInfo → LoopInfo) :
    (g.updateLoop l f).blocks = g.blocks := rfl

/-! ## Phase characterisation: `DeleteBlock` -/

theorem Graph.deletePhisPhase_length (g : Graph) (bid : Nat) (l : List Nat) :
    (g.deletePhisPhase bid l).blocks.length = g.blocks.length := by
  induction l generalizing g with
  | nil => rfl
  | cons i t ih =>
    unfold Graph.deletePhisPhase at *
    simp only [List.foldl_cons]
    rw [ih]
    simp [Graph.removeAsUser, Graph.removeFromEnvironmentUsers, Graph.mapInsns]

theorem Graph.deleteInsnsPhase_length (g : Graph) (bid : Nat) (l : List Nat) :
    (g.deleteInsnsPhase bid l).blocks.length = g.blocks.length := by
  induction l generalizing g with
  | nil => rfl
  | cons i t ih =>
    unfold Graph.deleteInsnsPhase at *
    simp only [List.foldl_cons]
    rw [ih]
    simp [Graph.removeAsUser, Graph.removeFromEnvironmentUsers, Graph.mapInsns]

theorem Graph.unlinkSuccStep_length (g : Graph) (bid j : Nat) :
    (g.unlinkSuccStep bid j).blocks.length = g.blocks.length := by
  unfold Graph.unlinkSuccStep
  cases g.block? bid with
  | none => rfl
  | some b =>
    simp only
    cases hb : g.block? (b.successors.getD j 0) with
    | none => simp
    | some sb =>
      by_cases hmem : bid ∈ sb.predecessors <;> simp [hmem]

theorem Graph.unlinkSuccessors_length (g : Graph) (bid n : Nat) :
    (g.unlinkSuccessors bid n).blocks.length = g.blocks.length := by
  induction n generalizing g with
  | zero => rfl
  | succ j ih =>
    unfold Graph.unlinkSuccessors
    rw [ih, Graph.unlinkSuccStep_length]

theorem Graph.deleteBlockUnlink_length (g : Graph) (bid : Nat) :
    (g.deleteBlockUnlink bid).blocks.length = g.blocks.length := by
  unfold Graph.deleteBlockUnlink
  cases g.block? bid with
  | none => rfl
  | some b =>
    simp only
    rw [Graph.updateBlock_length, Graph.unlinkSuccessors_length,
      Graph.deleteInsnsPhase_length, Graph.deletePhisPhase_length]

theorem Graph.deleteBlock_blocks (g : Graph) (bid : Nat) {b : Block}
    (h : g.block? bid = some b) :
    (g.deleteBlock bid).blocks = ((g.deleteBlockUnlink bid).clearBlock bid).blocks := by
  unfold Graph.deleteBlock
  rw [h]
  simp only
  split <;> rfl

theorem Graph.deleteBlock_tombstone (g : Graph) (bid : Nat) {b : Block}
    (h : g.block? bid = some b) : (g.deleteBlock bid).block? bid = none := by
  have hlen : bid < (g.deleteBlockUnlink bid).blocks.length := by
    rw [Graph.deleteBlockUnlink_length]
    exact Graph.lt_length_of_block? h
  show (g.deleteBlock bid).blocks.getD bid none = none
  rw [Graph.deleteBlock_blocks g bid h]
  exact Graph.block?_clearBlock_self _ _ hlen

/-! ## C10: `Dump` versus tombstones -/

theorem dumpEntries_isSome_iff (l : List (Option Block)) :
    (dumpEntries l).isSome ↔ none ∉ l := by
  induction l with
  | nil => simp [dumpEntries]
  | cons x t ih =>
    cases x with
    | none => simp [dumpEntries]
    | some b =>
      simp [dumpEntries, ih]

theorem none_mem_of_block?_none {g : Graph} {i : Nat} (hlt : i < g.blocks.length)
    (h : g.block? i = none) : none ∈ g.blocks := by
  have : g.blocks.getD i none = none := h
  rw [List.getD_eq_getElem?_getD, List.getElem?_eq_getElem hlt] at this
  simp only [Option.getD_some] at this
  rw [← this]
  exact List.getElem_mem hlt

/-- C10: once `DeleteBlock` has tombstoned a block (a null entry in the
graph's block table), `Dump` dereferences that null entry while iterating
the table (the `none` outcome), and `Dump` executes safely exactly on
graphs whose block table has no null entry. -/
theorem dump_unsafe_after_deleteBlock (g : Graph) (bid : Nat) (b : Block)
    (h : g.block? bid = some b) :
    (g.deleteBlock bid).dump = none ∧
      ∀ g2 : Graph, (g2.dump).isSome ↔ none ∉ g2.blocks := by
  refine ⟨?_, fun g2 => dumpEntries_isSome_iff g2.blocks⟩
  have htomb : (g.deleteBlock bid).block? bid = none := Graph.deleteBlock_tombstone g bid h
  have hlt : bid < (g.deleteBlock bid).blocks.length := by
    rw [Graph.deleteBlock_blocks g bid h]
    simp [Graph.deleteBlockUnlink_length]
    exact Graph.lt_length_of_block? h
  have hmem : none ∈ (g.deleteBlock bid).blocks := none_mem_of_block?_none hlt htomb
  have := (dumpEntries_isSome_iff (g.deleteBlock bid).blocks).not
  rcases hd : (g.deleteBlock bid).dump with _ | v
  · rfl
  · exfalso
    have : (g.deleteBlock bid).dump.isSome := by rw [hd]; rfl
    exact ((dumpEntries_isSome_iff _).mp this) hmem

/-- Witness for C10 at a concrete two-block graph. -/
theorem dump_unsafe_after_deleteBlock_witness :
    (Graph.block?
        { blocks := [some { phis := [], instructions := [], successors := [1],
                            predecessors := [], dominator := none, dominated := [],
                            loopInfo := none },
                     some { phis := [], instructions := [], successors := [],
                            predecessors := [0], dominator := none, dominated := [],
                            loopInfo := none }],
          insns := [], loops := [], reverse_post_order := [0, 1], linear_order := [] }
        1 = some { phis := [], instructions := [], successors := [],
                   predecessors := [0], dominator := none, dominated := [],
                   loopInfo := none }) ∧
    (Graph.deleteBlock
        { blocks := [some { phis := [], instructions := [], successors := [1],
                            predecessors := [], dominator := none, dominated := [],
                            loopInfo := none },
                     some { phis := [], instructions := [], successors := [],
                            predecessors := [0], dominator := none, dominated := [],
                            loopInfo := none }],
          insns := [], loops := [], reverse_post_order := [0, 1], linear_order := [] }
        1).dump = none := by
  constructor
  · rfl
  · exact (dump_unsafe_after_deleteBlock
      { blocks := [some { phis := [], instructions := [], successors := [1],
                          predecessors := [], dominator := none, dominated := [],
                          loopInfo := none },
                   some { phis := [], instructions := [], successors := [],
                          predecessors := [0], dominator := none, dominated := [],
                          loopInfo := none }],
        insns := [], loops := [], reverse_post_order := [0, 1], linear_order := [] }
      1
      { phis := [], instructions := [], successors := [],
        predecessors := [0], dominator := none, dominated := [], loopInfo := none }
      rfl).1

/-! ## List splicing lemmas for the reverse-post-order edit -/

theorem set_insertIdx_self (l : List Nat) (i : Nat) (y z : Nat) (h : i ≤ l.length) :
    (l.insertIdx i z).set i y = l.insertIdx i y := by
  induction l generalizing i with
  | nil =>
    have : i = 0 := Nat.le_zero.mp h
    subst this
    rfl
  | cons a t ih =>
    cases i with
    | zero => rfl
    | succ i =>
      have h' : i ≤ t.length := Nat.succ_le_succ_iff.mp h
      simp only [List.insertIdx_succ_cons, List.set_cons_succ, ih i h']

theorem set_set_insertIdx_before (l : List Nat) (i : Nat) (y z w : Nat) (h : i < l.length)
    (hw : l.getD i 0 = w) :
    ((l.insertIdx (i + 1) z).set i y).set (i + 1) w = l.insertIdx i y := by
  induction l generalizing i w with
  | nil => cases h
  | cons a t ih =>
    cases i with
    | zero =>
      rw [List.getD_cons_zero] at hw
      subst hw
      simp [List.insertIdx_succ_cons, List.insertIdx_zero]
    | succ i =>
      have h' : i < t.length := Nat.succ_lt_succ_iff.mp h
      rw [List.getD_cons_succ] at hw
      simp only [List.insertIdx_succ_cons, List.set_cons_succ, ih i w h' hw]

theorem getD_insertIdx_self (l : List Nat) (i a : Nat) (h : i ≤ l.length) :
    (l.insertIdx i a).getD i 0 = a := by
  induction l generalizing i with
  | nil =>
    have : i = 0 := Nat.le_zero.mp h
    subst this; rfl
  | cons x t ih =>
    cases i with
    | zero => rfl
    | succ i =>
      simp only [List.insertIdx_succ_cons, List.getD_cons_succ]
      exact ih i (Nat.succ_le_succ_iff.mp h)

theorem getD_insertIdx_lt (l : List Nat) (i j a : Nat) (h : j < i) :
    (l.insertIdx i a).getD j 0 = l.getD j 0 := by
  induction l generalizing i j with
  | nil =>
    cases i with
    | zero => cases h
    | succ i =>
      cases j <;> simp [List.insertIdx, List.getD]
  | cons x t ih =>
    cases i with
    | zero => cases h
    | succ i =>
      cases j with
      | zero => rfl
      | succ j =>
        simp only [List.insertIdx_succ_cons, List.getD_cons_succ]
        exact ih i j (Nat.succ_lt_succ_iff.mp h)

theorem getD_insertIdx_succ_self (l : List Nat) (i a : Nat) (h : i < l.length) :
    (l.insertIdx i a).getD (i + 1) 0 = l.getD i 0 := by
  induction l generalizing i with
  | nil => cases h
  | cons x t ih =>
    cases i with
    | zero => rfl
    | succ i =>
      simp only [List.insertIdx_succ_cons, List.getD_cons_succ]
      exact ih i (Nat.succ_lt_succ_iff.mp h)

@[simp] theorem Graph.block?_mk (bl : List (Option Block)) (ins : List (Nat × Instruction))
    (lp : List (Nat × LoopInfo)) (r lin : List Nat) (c : Nat) :
    (Graph.mk bl ins lp r lin).block? c = bl.getD c none := rfl

@[simp] theorem Graph.getD_blocks (g : Graph) (c : Nat) :
    g.blocks.getD c none = g.block? c := rfl

/-! ## C5: the reverse-post-order effect of `CreateLinkBetweenBlocks` -/

theorem Graph.createLink_rpo (g : Graph) (e n : Nat) (dom dir : Bool)
    (he : e ∈ g.reverse_post_order) :
    (g.createLinkBetweenBlocks e n dom dir).reverse_post_order =
      if dir then g.reverse_post_order.insertIdx (g.reverse_post_order.indexOf e + 1) n
      else g.reverse_post_order.insertIdx (g.reverse_post_order.indexOf e) n := by
  have hidx : g.reverse_post_order.indexOf e < g.reverse_post_order.length :=
    List.indexOf_lt_length.mpr he
  have hgete : g.reverse_post_order.getD (g.reverse_post_order.indexOf e) 0 = e := by
    rw [List.getD_eq_getElem _ 0 hidx]
    exact List.getElem_indexOf hidx
  unfold Graph.createLinkBetweenBlocks makeRoomFor
  cases dom <;> cases dir <;>
    simp only [Bool.false_eq_true, if_false, if_true, Graph.addSuccessor,
      Graph.updateBlock_rpo, cond_false, cond_true]
  · exact set_set_insertIdx_before _ _ _ _ _ hidx hgete
  · exact set_insertIdx_self _ _ _ _ (Nat.succ_le_of_lt hidx)
  · exact set_set_insertIdx_before _ _ _ _ _ hidx hgete
  · exact set_insertIdx_self _ _ _ _ (Nat.succ_le_of_lt hidx)

/-- C5: with the existing block `e` present in reverse post order, the
added block `n` is spliced in at the slot immediately after `e` when
linking after (and immediately before `e` when linking before), shifting
the subsequent entries by one and preserving all other entries' relative
order (the new ordering is exactly an `insertIdx`); in particular the slot
of `e` and the adjacent slot hold `e` and `n` in the direction-appropriate
order. -/
theorem createLinkBetweenBlocks_rpo_insertion (g : Graph) (e n : Nat) (dom dir : Bool)
    (he : e ∈ g.reverse_post_order) :
    (g.createLinkBetweenBlocks e n dom dir).reverse_post_order =
      (if dir then g.reverse_post_order.insertIdx (g.reverse_post_order.indexOf e + 1) n
       else g.reverse_post_order.insertIdx (g.reverse_post_order.indexOf e) n) ∧
    (dir = true →
      (g.createLinkBetweenBlocks e n dom dir).reverse_post_order.getD
          (g.reverse_post_order.indexOf e) 0 = e ∧
      (g.createLinkBetweenBlocks e n dom dir).reverse_post_order.getD
          (g.reverse_post_order.indexOf e + 1) 0 = n) ∧
    (dir = false →
      (g.createLinkBetweenBlocks e n dom dir).reverse_post_order.getD
          (g.reverse_post_order.indexOf e) 0 = n ∧
      (g.createLinkBetweenBlocks e n dom dir).reverse_post_order.getD
          (g.reverse_post_order.indexOf e + 1) 0 = e) := by
  have hidx : g.reverse_post_order.indexOf e < g.reverse_post_order.length :=
    List.indexOf_lt_length.mpr he
  have hgete : g.reverse_post_order.getD (g.reverse_post_order.indexOf e) 0 = e := by
    rw [List.getD_eq_getElem _ 0 hidx]
    exact List.getElem_indexOf hidx
  have hmain := Graph.createLink_rpo g e n dom dir he
  refine ⟨hmain, ?_, ?_⟩
  · rintro rfl
    rw [hmain]
    simp only [if_true]
    constructor
    · rw [getD_insertIdx_lt _ _ _ _ (Nat.lt_succ_self _)]
      exact hgete
    · exact getD_insertIdx_self _ _ _ (Nat.succ_le_of_lt hidx)
  · rintro rfl
    rw [hmain]
    simp only [Bool.false_eq_true, if_false]
    constructor
    · exact getD_insertIdx_self _ _ _ (Nat.le_of_lt hidx)
    · rw [getD_insertIdx_succ_self _ _ _ hidx]
      exact hgete

/-- Witness for C5 at the spec's own scenario: RPO = [E, F] = [0, 2],
linking N = 1 after E as dominator child yields RPO = [E, N, F]. -/
theorem createLinkBetweenBlocks_rpo_insertion_witness :
    (0 : Nat) ∈ threeBlockRpoGraph.reverse_post_order ∧
    (threeBlockRpoGraph.createLinkBetweenBlocks 0 1 true true).reverse_post_order =
      [0, 1, 2] := by
  refine ⟨by decide, ?_⟩
  have h := createLinkBetweenBlocks_rpo_insertion threeBlockRpoGraph 0 1 true true (by decide)
  rw [h.1]
  rfl

/-! ## C2: the dominance effect of `CreateLinkBetweenBlocks` -/

/-- C2 (amended): the dominance link follows the direction of the inserted
edge.  Linking `n` after `e` sets `n`'s immediate dominator to `e` and
appends exactly `n` to `e`'s dominated set; linking `n` before `e` sets
`e`'s immediate dominator to `n` and appends exactly `e` to `n`'s dominated
set; every other block is untouched. -/
theorem createLinkBetweenBlocks_dominator (g : Graph) (e n : Nat) (be bn : Block)
    (hne : e ≠ n) (he : g.block? e = some be) (hn : g.block? n = some bn) :
    (∀ dir : Bool, ∀ c, c ≠ e → c ≠ n →
        (g.createLinkBetweenBlocks e n true dir).block? c = g.block? c) ∧
    ((g.createLinkBetweenBlocks e n true true).block? n =
        some { bn with predecessors := bn.predecessors ++ [e], dominator := some e } ∧
      (g.createLinkBetweenBlocks e n true true).block? e =
        some { be with successors := be.successors ++ [n], dominated := be.dominated ++ [n] }) ∧
    ((g.createLinkBetweenBlocks e n true false).block? e =
        some { be with predecessors := be.predecessors ++ [n], dominator := some n } ∧
      (g.createLinkBetweenBlocks e n true false).block? n =
        some { bn with successors := bn.successors ++ [e], dominated := bn.dominated ++ [e] }) := by
  have hnsym : n ≠ e := Ne.symm hne
  refine ⟨?_, ⟨?_, ?_⟩, ⟨?_, ?_⟩⟩
  · intro dir c hce hcn
    have h1 : e ≠ c := Ne.symm hce
    have h2 : n ≠ c := Ne.symm hcn
    unfold Graph.createLinkBetweenBlocks Graph.addSuccessor
    cases dir
    · simp only [Bool.false_eq_true, if_false, if_true, Graph.block?_mk, Graph.getD_blocks]
      rw [Graph.block?_updateBlock_ne _ _ _ _ h2, Graph.block?_updateBlock_ne _ _ _ _ h1,
        Graph.block?_updateBlock_ne _ _ _ _ h1, Graph.block?_updateBlock_ne _ _ _ _ h2]
    · simp only [if_true, Graph.block?_mk, Graph.getD_blocks]
      rw [Graph.block?_updateBlock_ne _ _ _ _ h1, Graph.block?_updateBlock_ne _ _ _ _ h2,
        Graph.block?_updateBlock_ne _ _ _ _ h2, Graph.block?_updateBlock_ne _ _ _ _ h1]
  · unfold Graph.createLinkBetweenBlocks Graph.addSuccessor
    simp only [if_true, Graph.block?_mk, Graph.getD_blocks]
    rw [Graph.block?_updateBlock_ne _ _ _ _ hne]
    rw [Graph.block?_updateBlock_self _ (Graph.block?_updateBlock_self _
      (by rw [Graph.block?_updateBlock_ne _ _ _ _ hne]; exact hn))]
  · unfold Graph.createLinkBetweenBlocks Graph.addSuccessor
    simp only [if_true, Graph.block?_mk, Graph.getD_blocks]
    rw [Graph.block?_updateBlock_self _ (by
      rw [Graph.block?_updateBlock_ne _ _ _ _ hnsym, Graph.block?_updateBlock_ne _ _ _ _ hnsym]
      exact Graph.block?_updateBlock_self _ he)]
  · unfold Graph.createLinkBetweenBlocks Graph.addSuccessor
    simp only [Bool.false_eq_true, if_false, if_true, Graph.block?_mk, Graph.getD_blocks]
    rw [Graph.block?_updateBlock_ne _ _ _ _ hnsym]
    rw [Graph.block?_updateBlock_self _ (Graph.block?_updateBlock_self _
      (by rw [Graph.block?_updateBlock_ne _ _ _ _ hnsym]; exact he))]
  · unfold Graph.createLinkBetweenBlocks Graph.addSuccessor
    simp only [Bool.false_eq_true, if_false, if_true, Graph.block?_mk, Graph.getD_blocks]
    rw [Graph.block?_updateBlock_self _ (by
      rw [Graph.block?_updateBlock_ne _ _ _ _ hne, Graph.block?_updateBlock_ne _ _ _ _ hne]
      exact Graph.block?_updateBlock_self _ hn)]

/-- Counterexample for C2 as stated: linking block 1 before block 0 with a
dominance relationship requested leaves the inserted block 1's dominator
untouched (`none`, not `some 0`) and instead sets the existing block 0's
dominator to the inserted block, registering 0 in 1's dominated set. -/
theorem createLinkBetweenBlocks_dominator_counterexample :
    ((isolatedPairGraph.createLinkBetweenBlocks 0 1 true false).block? 1).map
        Block.dominator = some none ∧
    ((isolatedPairGraph.createLinkBetweenBlocks 0 1 true false).block? 0).map
        Block.dominator = some (some 1) ∧
    ((isolatedPairGraph.createLinkBetweenBlocks 0 1 true false).block? 0).map
        Block.dominated = some [] ∧
    ((isolatedPairGraph.createLinkBetweenBlocks 0 1 true false).block? 1).map
        Block.dominated = some [0] := by
  refine ⟨rfl, rfl, rfl, rfl⟩

/-- Witness for C2 (amended) at a concrete pair of blocks, after-direction:
the inserted block's dominator is the existing block. -/
theorem createLinkBetweenBlocks_dominator_witness :
    ((isolatedPairGraph.createLinkBetweenBlocks 0 1 true true).block? 1).map
        Block.dominator = some (some 0) := by
  have h := createLinkBetweenBlocks_dominator isolatedPairGraph 0 1 emptyBlock emptyBlock
    (by decide) rfl rfl
  rw [h.2.1.1]
  rfl

/-! ## C9: assertion behaviour of `MoveInstructionBefore` -/

/-- C9: every malformed invocation of `MoveInstructionBefore` — null
instruction or cursor, phi cursor, control-flow instruction, unassigned
(-1) identity on either, or coinciding source and target blocks — is
surfaced as an immediate, non-recoverable assertion failure (the `none`
outcome), never as a recoverable result or a silent continuation. -/
theorem moveInstructionBefore_asserts (g : Graph) (io co : Option Nat)
    (h : g.malformedMove io co) : g.moveInstructionBefore io co = none := by
  rcases io with _ | i
  · rfl
  rcases hii : g.insn? i with _ | ii
  · simp [Graph.moveInstructionBefore, hii]
  rcases co with _ | c
  · simp [Graph.moveInstructionBefore, hii]
  rcases hci : g.insn? c with _ | ci
  · simp [Graph.moveInstructionBefore, hii, hci]
  simp only [Graph.moveInstructionBefore, hii, hci]
  split_ifs with h1 h2 h3 h4 h5
  · rfl
  · rfl
  · rfl
  · rfl
  · rfl
  · exfalso
    rcases h with h | h | ⟨c', ci', hc, hic, hphi⟩ | ⟨i', ii', hi, hii2, hcf⟩ |
      ⟨i', ii', hi, hii2, hid⟩ | ⟨c', ci', hc, hic, hid⟩ |
      ⟨i', ii', c', ci', hi, hc, hii2, hic, hbk⟩
    · exact Option.noConfusion h
    · exact Option.noConfusion h
    · cases hc; rw [hci] at hic; cases hic; exact h1 hphi
    · cases hi; rw [hii] at hii2; cases hii2; exact h5 hcf
    · cases hi; rw [hii] at hii2; cases hii2; exact h3 hid
    · cases hc; rw [hci] at hic; cases hic; exact h4 hid
    · cases hi; cases hc; rw [hii] at hii2; cases hii2; rw [hci] at hic; cases hic
      exact h2 hbk

/-- Witness for C9: a phi used as the cursor aborts. -/
theorem moveInstructionBefore_asserts_witness :
    movePhiGraph.malformedMove (some 20) (some 20) ∧
    movePhiGraph.moveInstructionBefore (some 20) (some 20) = none := by
  have hm : movePhiGraph.malformedMove (some 20) (some 20) :=
    Or.inr (Or.inr (Or.inl ⟨20, _, rfl, rfl, rfl⟩))
  exact ⟨hm, moveInstructionBefore_asserts movePhiGraph _ _ hm⟩

/-! ## C8: `MovePhi` -/

/-- C8: `MovePhi(P, T)` is a no-op when `T` is already `P`'s block; when
`T` differs, the only state that changes is `P`'s owning-block
back-reference (now `T`), its removal from the source phi sequence and its
appending to `T`'s phi sequence — `P`'s identity number, kind flags, uses
and use-list are untouched, every other instruction and block is untouched,
and the loop table and both orderings are untouched. -/
theorem movePhi_frame (g : Graph) (p toB : Nat) (pi : Instruction) (fromB : Nat)
    (bf bt : Block)
    (hpi : g.insn? p = some pi) (hb : pi.blockId = some fromB)
    (hf : g.block? fromB = some bf) (ht : g.block? toB = some bt) :
    (fromB = toB → g.movePhi p toB = g) ∧
    (fromB ≠ toB →
      (g.movePhi p toB).insn? p = some { pi with blockId := some toB } ∧
      (∀ q, q ≠ p → (g.movePhi p toB).insn? q = g.insn? q) ∧
      (g.movePhi p toB).block? fromB = some { bf with phis := bf.phis.erase p } ∧
      (g.movePhi p toB).block? toB = some { bt with phis := bt.phis ++ [p] } ∧
      (∀ c, c ≠ fromB → c ≠ toB → (g.movePhi p toB).block? c = g.block? c) ∧
      (g.movePhi p toB).loops = g.loops ∧
      (g.movePhi p toB).reverse_post_order = g.reverse_post_order ∧
      (g.movePhi p toB).linear_order = g.linear_order) := by
  constructor
  · intro heq
    subst heq
    simp [Graph.movePhi, hpi, hb]
  · intro hne
    have key : g.movePhi p toB =
        ((g.updateBlock fromB (fun b => { b with phis := b.phis.erase p })).updateBlock toB
          (fun b => { b with phis := b.phis ++ [p] })).updateInsn p
            (fun i => { i with blockId := some toB }) := by
      simp only [Graph.movePhi, hpi, hb, if_neg hne]
    rw [key]
    refine ⟨?_, ?_, ?_, ?_, ?_, ?_, ?_, ?_⟩
    · rw [Graph.insn?_updateInsn]
      simp only [if_pos rfl, Graph.insn?_updateBlock]
      rw [hpi]
      rfl
    · intro q hq
      rw [Graph.insn?_updateInsn]
      simp [hq]
    · rw [Graph.block?_updateInsn, Graph.block?_updateBlock_ne _ _ _ _ (Ne.symm hne)]
      exact Graph.block?_updateBlock_self _ hf
    · rw [Graph.block?_updateInsn]
      have h1 : (g.updateBlock fromB (fun b => { b with phis := b.phis.erase p })).block? toB
          = some bt := by
        rw [Graph.block?_updateBlock_ne _ _ _ _ hne]
        exact ht
      exact Graph.block?_updateBlock_self _ h1
    · intro c hcf hct
      rw [Graph.block?_updateInsn, Graph.block?_updateBlock_ne _ _ _ _ (Ne.symm hct),
        Graph.block?_updateBlock_ne _ _ _ _ (Ne.symm hcf)]
    · simp [Graph.updateInsn]
    · simp [Graph.updateInsn]
    · simp [Graph.updateInsn]

/-- Witness for C8 at the concrete phi 20 moved from block 0 to block 1. -/
theorem movePhi_frame_witness :
    (movePhiGraph.movePhi 20 1).insn? 20 =
      some { id := 20, blockId := some 1, isPhi := true, isControlFlow := false,
             uses := [(21, 0)], envUses := [22] } ∧
    ((movePhiGraph.movePhi 20 1).block? 0).map Block.phis = some [] ∧
    ((movePhiGraph.movePhi 20 1).block? 1).map Block.phis = some [20] := by
  have h := movePhi_frame movePhiGraph 20 1
    { id := 20, blockId := some 0, isPhi := true, isControlFlow := false,
      uses := [(21, 0)], envUses := [22] } 0
    { emptyBlock with phis := [20] } emptyBlock rfl rfl rfl rfl
  have h2 := h.2 (by decide)
  refine ⟨h2.1, ?_, ?_⟩
  · rw [h2.2.2.1]
    rfl
  · rw [h2.2.2.2.1]
    rfl

/-! ## C7: `MoveInstructionBefore`, success path -/

theorem insertInstructionBefore_spec (i c : Nat) (l : List Nat) (h : c ∈ l) :
    ∃ l1 l2, l = l1 ++ c :: l2 ∧ c ∉ l1 ∧
      insertInstructionBefore i c l = l1 ++ i :: c :: l2 := by
  induction l with
  | nil => cases h
  | cons x t ih =>
    by_cases hx : x = c
    · subst hx
      exact ⟨[], t, rfl, by simp, by simp [insertInstructionBefore]⟩
    · have hct : c ∈ t := by
        rcases List.mem_cons.mp h with h1 | h1
        · exact absurd h1.symm hx
        · exact h1
      obtain ⟨l1, l2, hdec, hnot, hins⟩ := ih hct
      refine ⟨x :: l1, l2, by rw [List.cons_append, ← hdec], ?_, ?_⟩
      · intro hmem
        rcases List.mem_cons.mp hmem with h1 | h1
        · exact hx h1.symm
        · exact hnot h1
      · simp only [insertInstructionBefore, if_neg hx, hins, List.cons_append]

/-- C7: moving instruction `i` (non-control-flow, assigned id) before
cursor `c` (non-phi, assigned id) in a different block succeeds and yields
a graph in which `i` sits in `c`'s block's instruction sequence immediately
preceding `c`, is gone from the source block's sequence, carries `c`'s
block as its owning block, and has its use-list, environment uses and every
other instruction and block untouched. -/
theorem moveInstructionBefore_moves (g : Graph) (i c : Nat) (ii ci : Instruction)
    (fb tb : Nat) (bf bt : Block)
    (hii : g.insn? i = some ii) (hci : g.insn? c = some ci)
    (hcphi : ci.isPhi = false) (hcf : ii.isControlFlow = false)
    (hidi : ii.id ≠ -1) (hidc : ci.id ≠ -1)
    (hfb : ii.blockId = some fb) (htb : ci.blockId = some tb) (hne : fb ≠ tb)
    (hbf : g.block? fb = some bf) (hbt : g.block? tb = some bt)
    (hcnt : bf.instructions.count i = 1) (hcmem : c ∈ bt.instructions) :
    ∃ g', g.moveInstructionBefore (some i) (some c) = some g' ∧
      g'.block? tb = some { bt with
        instructions := insertInstructionBefore i c bt.instructions } ∧
      (∃ l1 l2, bt.instructions = l1 ++ c :: l2 ∧ c ∉ l1 ∧
        insertInstructionBefore i c bt.instructions = l1 ++ i :: c :: l2) ∧
      g'.block? fb = some { bf with instructions := bf.instructions.erase i } ∧
      i ∉ bf.instructions.erase i ∧
      g'.insn? i = some { ii with blockId := some tb } ∧
      (∀ q, q ≠ i → g'.insn? q = g.insn? q) ∧
      (∀ b, b ≠ fb → b ≠ tb → g'.block? b = g.block? b) ∧
      g'.loops = g.loops ∧
      g'.reverse_post_order = g.reverse_post_order ∧
      g'.linear_order = g.linear_order := by
  have hfbtb : ii.blockId ≠ ci.blockId := by
    rw [hfb, htb]
    intro hcontra
    exact hne (Option.some.injEq _ _ ▸ hcontra)
  refine ⟨((g.updateBlock fb (fun b => { b with instructions := b.instructions.erase i })).updateInsn
      i (fun ins => { ins with blockId := some tb })).updateBlock tb
      (fun b => { b with instructions := insertInstructionBefore i c b.instructions }),
    ?_, ?_, ?_, ?_, ?_, ?_, ?_, ?_, ?_, ?_, ?_⟩
  · simp only [Graph.moveInstructionBefore, hii, hci, hcphi, Bool.false_eq_true, if_false,
      if_neg hfbtb, if_neg hidi, if_neg hidc, hfb, htb]
    simp [hne, hcf]
  · have h1 : ((g.updateBlock fb
        (fun b => { b with instructions := b.instructions.erase i })).updateInsn
        i (fun ins => { ins with blockId := some tb })).block? tb = some bt := by
      rw [Graph.block?_updateInsn, Graph.block?_updateBlock_ne _ _ _ _ hne]
      exact hbt
    exact Graph.block?_updateBlock_self _ h1
  · exact insertInstructionBefore_spec i c bt.instructions hcmem
  · rw [Graph.block?_updateBlock_ne _ _ _ _ (Ne.symm hne), Graph.block?_updateInsn]
    exact Graph.block?_updateBlock_self _ hbf
  · intro hmem
    have hze := List.count_erase_self i bf.instructions
    rw [hcnt] at hze
    have hzero : (bf.instructions.erase i).count i = 0 := hze
    rw [List.count_eq_zero] at hzero
    exact hzero hmem
  · rw [Graph.insn?_updateBlock, Graph.insn?_updateInsn]
    simp only [if_pos rfl, Graph.insn?_updateBlock]
    rw [hii]
    rfl
  · intro q hq
    rw [Graph.insn?_updateBlock, Graph.insn?_updateInsn]
    simp [hq]
  · intro b hbfne hbtne
    rw [Graph.block?_updateBlock_ne _ _ _ _ (Ne.symm hbtne), Graph.block?_updateInsn,
      Graph.block?_updateBlock_ne _ _ _ _ (Ne.symm hbfne)]
  · simp [Graph.updateInsn]
  · simp [Graph.updateInsn]
  · simp [Graph.updateInsn]

/-- Witness for C7 at the spec's own scenario: X = [a, b] = [10, 11],
Y = [c, d] = [12, 13]; moving `a` before `d` yields X = [b], Y = [c, a, d]
with `a`'s use-list intact. -/
theorem moveInstructionBefore_moves_witness :
    ∃ g', moveInsnGraph.moveInstructionBefore (some 10) (some 13) = some g' ∧
      (g'.block? 0).map Block.instructions = some [11] ∧
      (g'.block? 1).map Block.instructions = some [12, 10, 13] ∧
      (g'.insn? 10).map Instruction.uses = some [(11, 0)] := by
  obtain ⟨g', hA, hB, hC, hD, hE, hF, hG, hH, hI, hJ, hK⟩ :=
    moveInstructionBefore_moves moveInsnGraph 10 13
      { id := 10, blockId := some 0, isPhi := false, isControlFlow := false,
        uses := [(11, 0)], envUses := [] }
      { id := 13, blockId := some 1, isPhi := false, isControlFlow := false,
        uses := [], envUses := [] }
      0 1
      { emptyBlock with instructions := [10, 11], successors := [1] }
      { emptyBlock with instructions := [12, 13], predecessors := [0] }
      rfl rfl rfl rfl (by decide) (by decide) rfl rfl (by decide) rfl rfl
      (by decide) (by decide)
  refine ⟨g', hA, ?_, ?_, ?_⟩
  · rw [hD]
    rfl
  · rw [hB]
    rfl
  · rw [hF]
    rfl

/-! ## C1 and C6: critical-edge splitting -/

theorem getD_append_lt {α : Type} (l l2 : List α) (i : Nat) (d : α) (h : i < l.length) :
    (l ++ l2).getD i d = l.getD i d := by
  simp [List.getD, List.getElem?_append, h]

theorem getD_append_self {α : Type} (l : List α) (x d : α) :
    (l ++ [x]).getD l.length d = x := by
  simp [List.getD]

theorem getD_of_length_le {α : Type} (l : List α) (i : Nat) (d : α) (h : l.length ≤ i) :
    l.getD i d = d := by
  simp [List.getD, List.getElem?_eq_none h]

theorem getD_set_self_nat (l : List Nat) (i v : Nat) (h : i < l.length) :
    (l.set i v).getD i 0 = v := by
  simp [List.getD, List.getElem?_set, h]

theorem getD_set_ne_nat (l : List Nat) (i j v : Nat) (h : i ≠ j) :
    (l.set i v).getD j 0 = l.getD j 0 := by
  simp [List.getD, List.getElem?_set, h]

theorem bind_loopInfo_of_map (o : Option Block) (v : Option Nat)
    (h : o.map Block.loopInfo = some v) : o.bind Block.loopInfo = v := by
  cases o with
  | none => cases h
  | some b =>
    simp only [Option.map_some'] at h
    cases h
    rfl

theorem Graph.splitCriticalEdge_proj (g : Graph) (fromB toB : Nat) (bf tb : Block)
    (hf : g.block? fromB = some bf) (ht : g.block? toB = some tb) :
    ((g.splitCriticalEdge fromB toB).block? toB).map Block.predecessors =
      some (tb.predecessors.set (tb.predecessors.indexOf fromB) g.blocks.length) ∧
    ((g.splitCriticalEdge fromB toB).block? toB).map Block.loopInfo = some tb.loopInfo ∧
    ((g.splitCriticalEdge fromB toB).block? fromB).map Block.loopInfo = some bf.loopInfo ∧
    (g.splitCriticalEdge fromB toB).block? g.blocks.length = some (splitterBlock fromB toB) ∧
    (g.splitCriticalEdge fromB toB).loops = g.loops ∧
    (g.splitCriticalEdge fromB toB).insns = g.insns ∧
    (∀ c, c ≠ fromB → c ≠ toB → c ≠ g.blocks.length →
      (g.splitCriticalEdge fromB toB).block? c = g.block? c) := by
  have hltf : fromB < g.blocks.length := Graph.lt_length_of_block? hf
  have hltt : toB < g.blocks.length := Graph.lt_length_of_block? ht
  have hna : fromB ≠ g.blocks.length := Nat.ne_of_lt hltf
  have hnb : toB ≠ g.blocks.length := Nat.ne_of_lt hltt
  have happf : ({ g with blocks := g.blocks ++ [some (splitterBlock fromB toB)] } : Graph).block?
      fromB = some bf := by
    simp only [Graph.block?_mk]
    rw [getD_append_lt _ _ _ _ hltf]
    exact hf
  have happt : ({ g with blocks := g.blocks ++ [some (splitterBlock fromB toB)] } : Graph).block?
      toB = some tb := by
    simp only [Graph.block?_mk]
    rw [getD_append_lt _ _ _ _ hltt]
    exact ht
  have happn : ({ g with blocks := g.blocks ++ [some (splitterBlock fromB toB)] } : Graph).block?
      g.blocks.length = some (splitterBlock fromB toB) := by
    simp only [Graph.block?_mk]
    exact getD_append_self _ _ _
  have happc : ∀ c, c ≠ g.blocks.length →
      ({ g with blocks := g.blocks ++ [some (splitterBlock fromB toB)] } : Graph).block? c =
        g.block? c := by
    intro c hcn
    simp only [Graph.block?_mk, Graph.getD_blocks]
    by_cases hclt : c < g.blocks.length
    · exact getD_append_lt _ _ _ _ hclt
    · push_neg at hclt
      have hgt : g.blocks.length + 1 ≤ c := by omega
      rw [getD_of_length_le _ _ _ (by simpa using hgt)]
      exact (getD_of_length_le g.blocks c none hclt).symm
  by_cases halias : fromB = toB
  · subst halias
    rw [hf] at ht
    cases ht
    unfold Graph.splitCriticalEdge
    refine ⟨?_, ?_, ?_, ?_, by simp, by simp, ?_⟩
    · rw [Graph.block?_updateBlock_self _ (Graph.block?_updateBlock_self _ happf)]
      rfl
    · rw [Graph.block?_updateBlock_self _ (Graph.block?_updateBlock_self _ happf)]
      rfl
    · rw [Graph.block?_updateBlock_self _ (Graph.block?_updateBlock_self _ happf)]
      rfl
    · rw [Graph.block?_updateBlock_ne _ _ _ _ hna, Graph.block?_updateBlock_ne _ _ _ _ hna]
      exact happn
    · intro c hcf hct hcn
      rw [Graph.block?_updateBlock_ne _ _ _ _ (Ne.symm hcf),
        Graph.block?_updateBlock_ne _ _ _ _ (Ne.symm hcf)]
      exact happc c hcn
  · unfold Graph.splitCriticalEdge
    refine ⟨?_, ?_, ?_, ?_, by simp, by simp, ?_⟩
    · rw [Graph.block?_updateBlock_ne _ _ _ _ halias,
        Graph.block?_updateBlock_self _ happt]
      rfl
    · rw [Graph.block?_updateBlock_ne _ _ _ _ halias,
        Graph.block?_updateBlock_self _ happt]
      rfl
    · rw [Graph.block?_updateBlock_self _ (by
        rw [Graph.block?_updateBlock_ne _ _ _ _ (Ne.symm halias)]
        exact happf)]
      rfl
    · rw [Graph.block?_updateBlock_ne _ _ _ _ hna, Graph.block?_updateBlock_ne _ _ _ _ hnb]
      exact happn
    · intro c hcf hct hcn
      rw [Graph.block?_updateBlock_ne _ _ _ _ (Ne.symm hcf),
        Graph.block?_updateBlock_ne _ _ _ _ (Ne.symm hct)]
      exact happc c hcn

theorem Graph.loopChainAux_congr (g1 g2 : Graph) (h : g1.loops = g2.loops) :
    ∀ (fuel : Nat) (ol : Option Nat), g1.loopChainAux fuel ol = g2.loopChainAux fuel ol := by
  intro fuel
  induction fuel with
  | zero => intro ol; rfl
  | succ fuel ih =>
    intro ol
    cases ol with
    | none => rfl
    | some l =>
      have hl : g1.loop? l = g2.loop? l := by
        unfold Graph.loop?
        rw [h]
      unfold Graph.loopChainAux
      rw [hl]
      cases g2.loop? l with
      | none => rfl
      | some li =>
        dsimp only
        rw [ih]

theorem Graph.nestChain_congr (g1 g2 : Graph) (h : g1.loops = g2.loops) (l : Nat) :
    g1.nestChain l = g2.nestChain l := by
  unfold Graph.nestChain
  rw [h, Graph.loopChainAux_congr g1 g2 h]

theorem Graph.isSome_of_mem_loopChainAux (g : Graph) :
    ∀ (fuel : Nat) (ol : Option Nat) (x : Nat), x ∈ g.loopChainAux fuel ol →
      (g.loop? x).isSome := by
  intro fuel
  induction fuel with
  | zero => intro ol x h; cases h
  | succ fuel ih =>
    intro ol x h
    cases ol with
    | none => cases h
    | some l =>
      unfold Graph.loopChainAux at h
      cases hl : g.loop? l with
      | none => rw [hl] at h; cases h
      | some li =>
        rw [hl] at h
        rcases List.mem_cons.mp h with rfl | h2
        · rw [hl]; rfl
        · exact ih _ x h2

theorem Graph.foldl_updateLoop_block? (L : List Nat) (g : Graph) (bid c : Nat) :
    (L.foldl (fun gg x =>
      gg.updateLoop x (fun li => { li with blocks := bid :: li.blocks })) g).block? c =
      g.block? c := by
  induction L generalizing g with
  | nil => rfl
  | cons x T ih =>
    rw [List.foldl_cons, ih]
    simp

theorem Graph.foldl_updateLoop_mem (L : List Nat) (g : Graph) (bid l0 : Nat) (li0 : LoopInfo)
    (h : g.loop? l0 = some li0) (hm : bid ∈ li0.blocks) :
    ∃ li', (L.foldl (fun gg x =>
      gg.updateLoop x (fun li => { li with blocks := bid :: li.blocks })) g).loop? l0 =
        some li' ∧ bid ∈ li'.blocks := by
  induction L generalizing g li0 with
  | nil => exact ⟨li0, h, hm⟩
  | cons x T ih =>
    rw [List.foldl_cons]
    by_cases hx : l0 = x
    · subst hx
      refine ih _ { li0 with blocks := bid :: li0.blocks } ?_ (List.mem_cons_self _ _)
      rw [Graph.loop?_updateLoop, if_pos rfl, h]
      rfl
    · refine ih _ li0 ?_ hm
      rw [Graph.loop?_updateLoop, if_neg hx]
      exact h

theorem Graph.foldl_updateLoop_adds (L : List Nat) (g : Graph) (bid : Nat)
    (hex : ∀ x ∈ L, (g.loop? x).isSome) :
    ∀ x ∈ L, ∃ li', (L.foldl (fun gg y =>
      gg.updateLoop y (fun li => { li with blocks := bid :: li.blocks })) g).loop? x =
        some li' ∧ bid ∈ li'.blocks := by
  induction L generalizing g with
  | nil => intro x h; cases h
  | cons y T ih =>
    intro x hx
    rw [List.foldl_cons]
    rcases List.mem_cons.mp hx with rfl | hT
    · obtain ⟨li, hli⟩ := Option.isSome_iff_exists.mp (hex x (List.mem_cons_self x T))
      have h1 : (g.updateLoop x (fun li => { li with blocks := bid :: li.blocks })).loop? x =
          some { li with blocks := bid :: li.blocks } := by
        rw [Graph.loop?_updateLoop]
        simp [hli]
      exact Graph.foldl_updateLoop_mem T _ bid x _ h1 (List.mem_cons_self bid _)
    · apply ih
      · intro z hz
        rw [Graph.loop?_updateLoop]
        by_cases hzy : z = y
        · subst hzy
          simp only [if_pos rfl]
          cases hzl : g.loop? z with
          | none =>
            exfalso
            have hzz := hex z (List.mem_cons_of_mem _ hz)
            rw [hzl] at hzz
            cases hzz
          | some li => rfl
        · rw [if_neg hzy]
          exact hex z (List.mem_cons_of_mem _ hz)
      · exact hT

theorem Graph.addToAll_spec (g : Graph) (l bid : Nat) (b : Block)
    (hb : g.block? bid = some b) :
    (g.addToAll l bid).block? bid = some { b with loopInfo := some l } ∧
    (∀ x ∈ g.nestChain l, ∃ li', (g.addToAll l bid).loop? x = some li' ∧ bid ∈ li'.blocks) ∧
    (∀ c, c ≠ bid → (g.addToAll l bid).block? c = g.block? c) := by
  unfold Graph.addToAll
  refine ⟨?_, ?_, ?_⟩
  · rw [Graph.foldl_updateLoop_block?]
    exact Graph.block?_updateBlock_self _ hb
  · intro x hx
    have hex : ∀ y ∈ g.nestChain l,
        ((g.updateBlock bid (fun bb => { bb with loopInfo := some l })).loop? y).isSome := by
      intro y hy
      rw [Graph.loop?_updateBlock]
      exact Graph.isSome_of_mem_loopChainAux g _ _ y hy
    exact Graph.foldl_updateLoop_adds _ _ bid hex x hx
  · intro c hc
    rw [Graph.foldl_updateLoop_block?]
    exact Graph.block?_updateBlock_ne _ _ _ _ (Ne.symm hc)

theorem Graph.splitCriticalEdgeAndUpdate_spec (g : Graph) (fromB toB : Nat) (bf tb : Block)
    (hf : g.block? fromB = some bf) (ht : g.block? toB = some tb)
    (hmem : fromB ∈ tb.predecessors) :
    ((g.splitCriticalEdgeAndUpdateLoopInformation fromB toB).block? toB).map
        Block.predecessors =
      some (tb.predecessors.set (tb.predecessors.indexOf fromB) g.blocks.length) ∧
    ((if g.isLoopHeader toB then bf.loopInfo else tb.loopInfo) = none →
      (g.splitCriticalEdgeAndUpdateLoopInformation fromB toB).loops = g.loops ∧
      ((g.splitCriticalEdgeAndUpdateLoopInformation fromB toB).block? g.blocks.length).map
        Block.loopInfo = some none) ∧
    (∀ l, (if g.isLoopHeader toB then bf.loopInfo else tb.loopInfo) = some l →
      ((g.splitCriticalEdgeAndUpdateLoopInformation fromB toB).block? g.blocks.length).map
        Block.loopInfo = some (some l) ∧
      ∀ x ∈ g.nestChain l, ∃ li',
        (g.splitCriticalEdgeAndUpdateLoopInformation fromB toB).loop? x = some li' ∧
          g.blocks.length ∈ li'.blocks) := by
  obtain ⟨h1, h2, h3, h4, h5, h6, h7⟩ := Graph.splitCriticalEdge_proj g fromB toB bf tb hf ht
  have hidx : tb.predecessors.indexOf fromB < tb.predecessors.length :=
    List.indexOf_lt_length.mpr hmem
  have hltt : toB < g.blocks.length := Graph.lt_length_of_block? ht
  have hnbt : toB ≠ g.blocks.length := Nat.ne_of_lt hltt
  cases hg1t : (g.splitCriticalEdge fromB toB).block? toB with
  | none => rw [hg1t] at h1; cases h1
  | some tb1 =>
    rw [hg1t] at h1 h2
    simp only [Option.map_some'] at h1 h2
    have hpred : tb1.predecessors =
        tb.predecessors.set (tb.predecessors.indexOf fromB) g.blocks.length :=
      Option.some.inj h1
    have hloopq : ∀ x, (g.splitCriticalEdge fromB toB).loop? x = g.loop? x := by
      intro x
      unfold Graph.loop?
      rw [h5]
    have hbindt : ((g.splitCriticalEdge fromB toB).block? toB).bind Block.loopInfo =
        tb.loopInfo := by
      rw [hg1t]
      simpa using Option.some.inj h2
    have hbindf : ((g.splitCriticalEdge fromB toB).block? fromB).bind Block.loopInfo =
        bf.loopInfo := bind_loopInfo_of_map _ _ h3
    have hbindt0 : (g.block? toB).bind Block.loopInfo = tb.loopInfo := by
      rw [ht]; rfl
    have hheader : (g.splitCriticalEdge fromB toB).isLoopHeader toB = g.isLoopHeader toB := by
      unfold Graph.isLoopHeader
      rw [hbindt, hbindt0]
      cases tb.loopInfo with
      | none => rfl
      | some l =>
        dsimp only
        rw [hloopq]
    have hsplit : tb1.predecessors.getD (tb.predecessors.indexOf fromB) 0 =
        g.blocks.length := by
      rw [hpred]
      exact getD_set_self_nat _ _ _ hidx
    have hw : g.splitCriticalEdgeAndUpdateLoopInformation fromB toB =
        match (if g.isLoopHeader toB then bf.loopInfo else tb.loopInfo) with
        | none => g.splitCriticalEdge fromB toB
        | some l => (g.splitCriticalEdge fromB toB).addToAll l g.blocks.length := by
      have h2' : tb1.loopInfo = tb.loopInfo := Option.some.inj h2
      simp only [Graph.splitCriticalEdgeAndUpdateLoopInformation, ht, hg1t, hsplit, hbindt,
        hbindf, hheader, Option.some_bind, h2']
    rcases hctx : (if g.isLoopHeader toB then bf.loopInfo else tb.loopInfo) with _ | l
    · rw [hctx] at hw
      refine ⟨?_, fun _ => ⟨?_, ?_⟩, fun l hl => Option.noConfusion hl⟩
      · rw [hw, hg1t]
        simpa using hpred
      · rw [hw]; exact h5
      · rw [hw, h4]; rfl
    · rw [hctx] at hw
      obtain ⟨ha1, ha2, ha3⟩ :=
        Graph.addToAll_spec (g.splitCriticalEdge fromB toB) l g.blocks.length _ h4
      refine ⟨?_, fun hnone => Option.noConfusion hnone, fun l' hl' => ?_⟩
      · rw [hw]
        have hfr := ha3 toB hnbt
        rw [hfr, hg1t]
        simpa using hpred
      · have hleq : l = l' := Option.some.inj hl'
        subst hleq
        constructor
        · rw [hw, ha1]
          rfl
        · intro x hx
          rw [hw]
          have hchain : (g.splitCriticalEdge fromB toB).nestChain l = g.nestChain l :=
            Graph.nestChain_congr _ _ h5 l
          exact ha2 x (by rw [hchain]; exact hx)

/-- C6: after `SplitCriticalEdgeAndUpdateLoopInformation(from, to)`, `to`'s
predecessor sequence equals its old sequence with exactly the slot
previously holding `from` (its recorded index) replaced by the splitter
(the fresh block id): the slot at that index now recovers the splitter, the
length is unchanged, every other slot is unchanged, and that index indeed
held `from` before the split. -/
theorem splitCriticalEdge_pred_slot (g : Graph) (fromB toB : Nat) (bf tb : Block)
    (hf : g.block? fromB = some bf) (ht : g.block? toB = some tb)
    (hmem : fromB ∈ tb.predecessors) :
    ((g.splitCriticalEdgeAndUpdateLoopInformation fromB toB).block? toB).map
        Block.predecessors =
      some (tb.predecessors.set (tb.predecessors.indexOf fromB) g.blocks.length) ∧
    (tb.predecessors.set (tb.predecessors.indexOf fromB) g.blocks.length).getD
        (tb.predecessors.indexOf fromB) 0 = g.blocks.length ∧
    (tb.predecessors.set (tb.predecessors.indexOf fromB) g.blocks.length).length =
      tb.predecessors.length ∧
    (∀ k, k ≠ tb.predecessors.indexOf fromB →
      (tb.predecessors.set (tb.predecessors.indexOf fromB) g.blocks.length).getD k 0 =
        tb.predecessors.getD k 0) ∧
    tb.predecessors.getD (tb.predecessors.indexOf fromB) 0 = fromB := by
  obtain ⟨hs1, -, -⟩ := Graph.splitCriticalEdgeAndUpdate_spec g fromB toB bf tb hf ht hmem
  have hidx : tb.predecessors.indexOf fromB < tb.predecessors.length :=
    List.indexOf_lt_length.mpr hmem
  refine ⟨hs1, getD_set_self_nat _ _ _ hidx, List.length_set _ _ _, ?_, ?_⟩
  · intro k hk
    exact getD_set_ne_nat _ _ _ _ (Ne.symm hk)
  · rw [List.getD_eq_getElem _ 0 hidx]
    exact List.getElem_indexOf hidx

/-- Witness for C6: splitting the back edge 0 → 2 of the nested-loop
scenario replaces `from`'s slot (index 1) of header 2's predecessor list
[1, 0] with the fresh splitter 4, giving [1, 4]. -/
theorem splitCriticalEdge_pred_slot_witness :
    ((splitScenarioGraph.splitCriticalEdgeAndUpdateLoopInformation 0 2).block? 2).map
        Block.predecessors = some [1, 4] := by
  have h := splitCriticalEdge_pred_slot splitScenarioGraph 0 2
    { emptyBlock with successors := [2], loopInfo := some 5 }
    { emptyBlock with predecessors := [1, 0], loopInfo := some 5 }
    rfl rfl (by decide)
  rw [h.1]
  rfl

/-- C1: the splitter's resolved loop context is `from`'s loop information
when `to` is a loop header and `to`'s otherwise; when that context is null
the loop table is unchanged and the splitter carries no loop tag (it is
added to no loop), and when it is non-null the splitter carries it as its
loop tag and is registered as a member of every loop in the context's
nesting chain, innermost to outermost. -/
theorem splitCriticalEdge_loop_context (g : Graph) (fromB toB : Nat) (bf tb : Block)
    (hf : g.block? fromB = some bf) (ht : g.block? toB = some tb)
    (hmem : fromB ∈ tb.predecessors) :
    ((if g.isLoopHeader toB then bf.loopInfo else tb.loopInfo) = none →
      (g.splitCriticalEdgeAndUpdateLoopInformation fromB toB).loops = g.loops ∧
      ((g.splitCriticalEdgeAndUpdateLoopInformation fromB toB).block? g.blocks.length).map
          Block.loopInfo = some none) ∧
    (∀ l, (if g.isLoopHeader toB then bf.loopInfo else tb.loopInfo) = some l →
      ((g.splitCriticalEdgeAndUpdateLoopInformation fromB toB).block? g.blocks.length).map
          Block.loopInfo = some (some l) ∧
      ∀ x ∈ g.nestChain l, ∃ li',
        (g.splitCriticalEdgeAndUpdateLoopInformation fromB toB).loop? x = some li' ∧
          g.blocks.length ∈ li'.blocks) := by
  obtain ⟨-, h2, h3⟩ := Graph.splitCriticalEdgeAndUpdate_spec g fromB toB bf tb hf ht hmem
  exact ⟨h2, h3⟩

/-- Witness for C1: splitting the back edge 0 → 2 (header of the inner
loop 5, nested in loop 6) resolves the context to `from`'s loop 5 and
registers the splitter 4 in both loops of the chain. -/
theorem splitCriticalEdge_loop_context_witness :
    ((splitScenarioGraph.splitCriticalEdgeAndUpdateLoopInformation 0 2).block? 4).map
        Block.loopInfo = some (some 5) ∧
    (∃ li', (splitScenarioGraph.splitCriticalEdgeAndUpdateLoopInformation 0 2).loop? 5 =
        some li' ∧ 4 ∈ li'.blocks) ∧
    (∃ li', (splitScenarioGraph.splitCriticalEdgeAndUpdateLoopInformation 0 2).loop? 6 =
        some li' ∧ 4 ∈ li'.blocks) := by
  have h := splitCriticalEdge_loop_context splitScenarioGraph 0 2
    { emptyBlock with successors := [2], loopInfo := some 5 }
    { emptyBlock with predecessors := [1, 0], loopInfo := some 5 }
    rfl rfl (by decide)
  have h2 := h.2 5 rfl
  exact ⟨h2.1, h2.2 5 (by decide), h2.2 6 (by decide)⟩

/-! ## C3 and C4: block deletion -/


theorem Graph.unlinkSuccStep_spec (g : Graph) (bid j : Nat) (b : Block)
    (hb : g.block? bid = some b) :
    (∃ b1, (g.unlinkSuccStep bid j).block? bid = some b1 ∧
       b1.successors = b.successors.erase (b.successors.getD j 0) ∧ b1.phis = b.phis ∧
       b1.instructions = b.instructions) ∧
    (∀ s0, s0 ≠ bid → g.block? s0 = none → (g.unlinkSuccStep bid j).block? s0 = none) ∧
    (∀ s0 sb, s0 ≠ bid → g.block? s0 = some sb →
      ∃ sb', (g.unlinkSuccStep bid j).block? s0 = some sb' ∧
        sb'.successors = sb.successors ∧ sb'.phis = sb.phis ∧
        sb'.instructions = sb.instructions ∧ sb'.dominator = sb.dominator ∧
        sb'.dominated = sb.dominated ∧ sb'.loopInfo = sb.loopInfo ∧
        (∀ x, x ≠ bid → sb'.predecessors.count x = sb.predecessors.count x) ∧
        sb'.predecessors.count bid =
          sb.predecessors.count bid -
            (if s0 = b.successors.getD j 0 then 1 else 0)) ∧
    (g.unlinkSuccStep bid j).insns = g.insns ∧
    (g.unlinkSuccStep bid j).loops = g.loops ∧
    (g.unlinkSuccStep bid j).reverse_post_order = g.reverse_post_order ∧
    (g.unlinkSuccStep bid j).linear_order = g.linear_order := by
  have hkey : g.unlinkSuccStep bid j =
      (match g.block? (b.successors.getD j 0) with
       | some sb =>
         if bid ∈ sb.predecessors then
           g.setBlock (b.successors.getD j 0)
             { sb with predecessors := sb.predecessors.erase bid }
         else g
       | none => g).updateBlock bid
        (fun bb => { bb with successors := bb.successors.erase (b.successors.getD j 0) }) := by
    unfold Graph.unlinkSuccStep
    rw [hb]
  by_cases hself : b.successors.getD j 0 = bid
  · -- the processed successor is the block itself (self loop)
    rw [hself] at hkey
    rw [hb] at hkey
    dsimp only at hkey
    by_cases hbm : bid ∈ b.predecessors
    · rw [if_pos hbm] at hkey
      have hlt : bid < g.blocks.length := Graph.lt_length_of_block? hb
      have hset : (g.setBlock bid { b with predecessors := b.predecessors.erase bid }).block?
          bid = some { b with predecessors := b.predecessors.erase bid } :=
        Graph.block?_setBlock_self _ _ _ hlt
      refine ⟨⟨{ b with
          predecessors := b.predecessors.erase bid, successors := b.successors.erase bid },
          ?_, ?_, rfl, rfl⟩, ?_, ?_,
        by rw [hkey]; simp, by rw [hkey]; simp, by rw [hkey]; simp, by rw [hkey]; simp⟩
      · rw [hkey]
        exact Graph.block?_updateBlock_self _ hset
      · rw [hself]
      · intro s0 hs0 hnone
        rw [hkey, Graph.block?_updateBlock_ne _ _ _ _ (Ne.symm hs0),
          Graph.block?_setBlock_ne _ _ _ _ (Ne.symm hs0)]
        exact hnone
      · intro s0 sb hs0 hsome
        refine ⟨sb, ?_, rfl, rfl, rfl, rfl, rfl, rfl, fun x _ => rfl, ?_⟩
        · rw [hkey, Graph.block?_updateBlock_ne _ _ _ _ (Ne.symm hs0),
            Graph.block?_setBlock_ne _ _ _ _ (Ne.symm hs0)]
          exact hsome
        · rw [hself, if_neg hs0]
          exact (Nat.sub_zero _).symm
    · rw [if_neg hbm] at hkey
      refine ⟨⟨{ b with successors := b.successors.erase bid }, ?_, ?_, rfl, rfl⟩, ?_, ?_,
        by rw [hkey]; simp, by rw [hkey]; simp, by rw [hkey]; simp, by rw [hkey]; simp⟩
      · rw [hkey]
        exact Graph.block?_updateBlock_self _ hb
      · rw [hself]
      · intro s0 hs0 hnone
        rw [hkey, Graph.block?_updateBlock_ne _ _ _ _ (Ne.symm hs0)]
        exact hnone
      · intro s0 sb hs0 hsome
        refine ⟨sb, ?_, rfl, rfl, rfl, rfl, rfl, rfl, fun x _ => rfl, ?_⟩
        · rw [hkey, Graph.block?_updateBlock_ne _ _ _ _ (Ne.symm hs0)]
          exact hsome
        · rw [hself, if_neg hs0]
          exact (Nat.sub_zero _).symm
  · -- the processed successor is another block
    cases hsb : g.block? (b.successors.getD j 0) with
    | none =>
      rw [hsb] at hkey
      dsimp only at hkey
      refine ⟨⟨{ b with successors := b.successors.erase (b.successors.getD j 0) }, ?_, rfl,
          rfl, rfl⟩, ?_, ?_,
        by rw [hkey]; simp, by rw [hkey]; simp, by rw [hkey]; simp, by rw [hkey]; simp⟩
      · rw [hkey]
        exact Graph.block?_updateBlock_self _ hb
      · intro s0 hs0 hnone
        rw [hkey, Graph.block?_updateBlock_ne _ _ _ _ (Ne.symm hs0)]
        exact hnone
      · intro s0 sb hs0 hsome
        by_cases hss : s0 = b.successors.getD j 0
        · rw [hss, hsb] at hsome
          cases hsome
        · refine ⟨sb, ?_, rfl, rfl, rfl, rfl, rfl, rfl, fun x _ => rfl, ?_⟩
          · rw [hkey, Graph.block?_updateBlock_ne _ _ _ _ (Ne.symm hs0)]
            exact hsome
          · rw [if_neg hss]
            exact (Nat.sub_zero _).symm
    | some sbt =>
      rw [hsb] at hkey
      dsimp only at hkey
      have hslt : b.successors.getD j 0 < g.blocks.length := Graph.lt_length_of_block? hsb
      by_cases hbm : bid ∈ sbt.predecessors
      · rw [if_pos hbm] at hkey
        have hgset : ∀ c, c ≠ b.successors.getD j 0 →
            (g.setBlock (b.successors.getD j 0)
              { sbt with predecessors := sbt.predecessors.erase bid }).block? c =
              g.block? c := by
          intro c hc
          exact Graph.block?_setBlock_ne _ _ _ _ (Ne.symm hc)
        refine ⟨⟨{ b with successors := b.successors.erase (b.successors.getD j 0) }, ?_, rfl,
            rfl, rfl⟩, ?_, ?_,
          by rw [hkey]; simp, by rw [hkey]; simp, by rw [hkey]; simp, by rw [hkey]; simp⟩
        · rw [hkey]
          refine Graph.block?_updateBlock_self _ ?_
          rw [hgset bid (fun hcc => hself hcc.symm)]
          exact hb
        · intro s0 hs0 hnone
          rw [hkey, Graph.block?_updateBlock_ne _ _ _ _ (Ne.symm hs0)]
          by_cases hss : s0 = b.successors.getD j 0
          · rw [hss, hsb] at hnone
            cases hnone
          · rw [hgset s0 hss]
            exact hnone
        · intro s0 sb hs0 hsome
          by_cases hss : s0 = b.successors.getD j 0
          · subst hss
            rw [hsb] at hsome
            cases hsome
            refine ⟨{ sbt with predecessors := sbt.predecessors.erase bid }, ?_, rfl, rfl,
              rfl, rfl, rfl, rfl, ?_, ?_⟩
            · rw [hkey, Graph.block?_updateBlock_ne _ _ _ _ (Ne.symm hs0)]
              exact Graph.block?_setBlock_self _ _ _ hslt
            · intro x hx
              exact List.count_erase_of_ne hx _
            · rw [if_pos rfl]
              exact List.count_erase_self bid sbt.predecessors
          · refine ⟨sb, ?_, rfl, rfl, rfl, rfl, rfl, rfl, fun x _ => rfl, ?_⟩
            · rw [hkey, Graph.block?_updateBlock_ne _ _ _ _ (Ne.symm hs0), hgset s0 hss]
              exact hsome
            · rw [if_neg hss]
              exact (Nat.sub_zero _).symm
      · rw [if_neg hbm] at hkey
        refine ⟨⟨{ b with successors := b.successors.erase (b.successors.getD j 0) }, ?_, rfl,
            rfl, rfl⟩, ?_, ?_,
          by rw [hkey]; simp, by rw [hkey]; simp, by rw [hkey]; simp, by rw [hkey]; simp⟩
        · rw [hkey]
          exact Graph.block?_updateBlock_self _ hb
        · intro s0 hs0 hnone
          rw [hkey, Graph.block?_updateBlock_ne _ _ _ _ (Ne.symm hs0)]
          exact hnone
        · intro s0 sb hs0 hsome
          by_cases hss : s0 = b.successors.getD j 0
          · subst hss
            rw [hsb] at hsome
            cases hsome
            refine ⟨sbt, ?_, rfl, rfl, rfl, rfl, rfl, rfl, fun x _ => rfl, ?_⟩
            · rw [hkey, Graph.block?_updateBlock_ne _ _ _ _ (Ne.symm hs0)]
              exact hsb
            · rw [if_pos rfl]
              have hz : sbt.predecessors.count bid = 0 := by
                rw [List.count_eq_zero]
                exact hbm
              rw [hz]
          · refine ⟨sb, ?_, rfl, rfl, rfl, rfl, rfl, rfl, fun x _ => rfl, ?_⟩
            · rw [hkey, Graph.block?_updateBlock_ne _ _ _ _ (Ne.symm hs0)]
              exact hsome
            · rw [if_neg hss]
              exact (Nat.sub_zero _).symm



theorem Graph.unlinkSuccessors_spec :
    ∀ (n : Nat) (g : Graph) (bid : Nat) (b : Block),
    g.block? bid = some b → b.successors.length = n →
    (∃ b', (g.unlinkSuccessors bid n).block? bid = some b' ∧
       b'.successors = [] ∧ b'.phis = b.phis ∧ b'.instructions = b.instructions) ∧
    (∀ s0, s0 ≠ bid → g.block? s0 = none → (g.unlinkSuccessors bid n).block? s0 = none) ∧
    (∀ s0 sb, s0 ≠ bid → g.block? s0 = some sb →
      ∃ sb', (g.unlinkSuccessors bid n).block? s0 = some sb' ∧
        sb'.successors = sb.successors ∧ sb'.phis = sb.phis ∧
        sb'.instructions = sb.instructions ∧ sb'.dominator = sb.dominator ∧
        sb'.dominated = sb.dominated ∧ sb'.loopInfo = sb.loopInfo ∧
        (∀ x, x ≠ bid → sb'.predecessors.count x = sb.predecessors.count x) ∧
        sb'.predecessors.count bid =
          sb.predecessors.count bid - b.successors.count s0) ∧
    (g.unlinkSuccessors bid n).insns = g.insns ∧
    (g.unlinkSuccessors bid n).loops = g.loops ∧
    (g.unlinkSuccessors bid n).reverse_post_order = g.reverse_post_order ∧
    (g.unlinkSuccessors bid n).linear_order = g.linear_order := by
  intro n
  induction n with
  | zero =>
    intro g bid b hb hlen
    have hnil : b.successors = [] := List.length_eq_zero.mp hlen
    refine ⟨⟨b, hb, hnil, rfl, rfl⟩, fun s0 _ h => h, ?_, rfl, rfl, rfl, rfl⟩
    intro s0 sb hs0 hsome
    refine ⟨sb, hsome, rfl, rfl, rfl, rfl, rfl, rfl, fun x _ => rfl, ?_⟩
    rw [hnil]
    rfl
  | succ j ih =>
    intro g bid b hb hlen
    have hjlt : j < b.successors.length := by omega
    have hgd : b.successors.getD j 0 = b.successors[j] := List.getD_eq_getElem _ 0 hjlt
    have hsmem : b.successors.getD j 0 ∈ b.successors := by
      rw [hgd]
      exact List.getElem_mem hjlt
    obtain ⟨⟨b1, hb1, hb1s, hb1p, hb1i⟩, hstep_none, hstep_some, hstep_insns, hstep_loops,
      hstep_rpo, hstep_lin⟩ := Graph.unlinkSuccStep_spec g bid j b hb
    have hlen1 : b1.successors.length = j := by
      rw [hb1s, List.length_erase_of_mem hsmem, hlen]
      omega
    obtain ⟨⟨b', hb', hb's, hb'p, hb'i⟩, hloop_none, hloop_some, hloop_insns, hloop_loops,
      hloop_rpo, hloop_lin⟩ := ih (g.unlinkSuccStep bid j) bid b1 hb1 hlen1
    have hUn : (g.unlinkSuccessors bid (j + 1)) =
        ((g.unlinkSuccStep bid j).unlinkSuccessors bid j) := rfl
    refine ⟨⟨b', by rw [hUn]; exact hb', hb's, by rw [hb'p, hb1p], by rw [hb'i, hb1i]⟩,
      ?_, ?_, ?_, ?_, ?_, ?_⟩
    · intro s0 hs0 hnone
      rw [hUn]
      exact hloop_none s0 hs0 (hstep_none s0 hs0 hnone)
    · intro s0 sb hs0 hsome
      obtain ⟨sb1, hsb1, hsb1s, hsb1p, hsb1i, hsb1d, hsb1dd, hsb1l, hsb1cnt, hsb1cntb⟩ :=
        hstep_some s0 sb hs0 hsome
      obtain ⟨sb', hsb', hsb's, hsb'p, hsb'i, hsb'd, hsb'dd, hsb'l, hsb'cnt, hsb'cntb⟩ :=
        hloop_some s0 sb1 hs0 hsb1
      refine ⟨sb', by rw [hUn]; exact hsb', by rw [hsb's, hsb1s], by rw [hsb'p, hsb1p],
        by rw [hsb'i, hsb1i], by rw [hsb'd, hsb1d], by rw [hsb'dd, hsb1dd],
        by rw [hsb'l, hsb1l], ?_, ?_⟩
      · intro x hx
        rw [hsb'cnt x hx, hsb1cnt x hx]
      · rw [hsb'cntb, hsb1cntb]
        by_cases hss : s0 = b.successors.getD j 0
        · have hcnt1 : b1.successors.count s0 = b.successors.count s0 - 1 := by
            rw [hb1s, ← hss]
            exact List.count_erase_self s0 b.successors
          have hpos : 0 < b.successors.count s0 := by
            rw [hss]
            exact List.count_pos_iff.mpr hsmem
          rw [if_pos hss, hcnt1]
          omega
        · have hcnt1 : b1.successors.count s0 = b.successors.count s0 := by
            rw [hb1s]
            exact List.count_erase_of_ne hss _
          rw [if_neg hss, hcnt1]
          omega
    · rw [hUn, hloop_insns, hstep_insns]
    · rw [hUn, hloop_loops, hstep_loops]
    · rw [hUn, hloop_rpo, hstep_rpo]
    · rw [hUn, hloop_lin, hstep_lin]




theorem Graph.scrubbed_of_insns_eq {g g' : Graph} (h : g'.insns = g.insns) (u : Nat)
    (hs : g.scrubbed u) : g'.scrubbed u := by
  intro j ins hj
  refine hs j ins ?_
  rw [Graph.insn?] at hj ⊢
  rw [← h]
  exact hj

theorem Graph.scrubbed_of_removes (g : Graph) (u : Nat) :
    ((g.removeAsUser u).removeFromEnvironmentUsers u).scrubbed u := by
  intro j ins h
  unfold Graph.removeFromEnvironmentUsers Graph.removeAsUser at h
  rw [Graph.insn?_mapInsns, Graph.insn?_mapInsns] at h
  cases hj : g.insn? j with
  | none => rw [hj] at h; cases h
  | some ins0 =>
    rw [hj] at h
    simp only [Option.map_some'] at h
    cases h
    constructor
    · intro p hp
      have hcond := (List.mem_filter.mp hp).2
      simpa using hcond
    · intro hmem
      have hcond := (List.mem_filter.mp hmem).2
      simp at hcond

theorem Graph.scrubbed_updateBlock (g : Graph) (i : Nat) (f : Block → Block) (u : Nat)
    (hs : g.scrubbed u) : (g.updateBlock i f).scrubbed u := by
  intro j ins hj
  rw [Graph.insn?_updateBlock] at hj
  exact hs j ins hj

theorem Graph.scrubbed_removeAsUser (g : Graph) (v u : Nat) (hs : g.scrubbed u) :
    (g.removeAsUser v).scrubbed u := by
  intro j ins hj
  unfold Graph.removeAsUser at hj
  rw [Graph.insn?_mapInsns] at hj
  cases hj0 : g.insn? j with
  | none => rw [hj0] at hj; cases hj
  | some ins0 =>
    rw [hj0] at hj
    simp only [Option.map_some'] at hj
    cases hj
    obtain ⟨h1, h2⟩ := hs j ins0 hj0
    constructor
    · intro p hp
      exact h1 p (List.mem_filter.mp hp).1
    · exact h2

theorem Graph.scrubbed_removeFromEnvironmentUsers (g : Graph) (v u : Nat)
    (hs : g.scrubbed u) : (g.removeFromEnvironmentUsers v).scrubbed u := by
  intro j ins hj
  unfold Graph.removeFromEnvironmentUsers at hj
  rw [Graph.insn?_mapInsns] at hj
  cases hj0 : g.insn? j with
  | none => rw [hj0] at hj; cases hj
  | some ins0 =>
    rw [hj0] at hj
    simp only [Option.map_some'] at hj
    cases hj
    obtain ⟨h1, h2⟩ := hs j ins0 hj0
    refine ⟨h1, ?_⟩
    intro hmem
    exact h2 (List.mem_filter.mp hmem).1

theorem Graph.deletePhisPhase_preserves_scrubbed :
    ∀ (l : List Nat) (g : Graph) (bid u : Nat), g.scrubbed u →
      (g.deletePhisPhase bid l).scrubbed u := by
  intro l
  induction l with
  | nil => intro g bid u hs; exact hs
  | cons a t ih =>
    intro g bid u hs
    unfold Graph.deletePhisPhase
    rw [List.foldl_cons]
    exact ih _ bid u (Graph.scrubbed_updateBlock _ _ _ _
      (Graph.scrubbed_removeFromEnvironmentUsers _ _ _
        (Graph.scrubbed_removeAsUser _ _ _ hs)))

theorem Graph.deletePhisPhase_scrubs :
    ∀ (l : List Nat) (g : Graph) (bid : Nat), ∀ u ∈ l,
      (g.deletePhisPhase bid l).scrubbed u := by
  intro l
  induction l with
  | nil => intro g bid u hu; cases hu
  | cons a t ih =>
    intro g bid u hu
    unfold Graph.deletePhisPhase
    rw [List.foldl_cons]
    rcases List.mem_cons.mp hu with rfl | ht
    · exact Graph.deletePhisPhase_preserves_scrubbed t _ bid u
        (Graph.scrubbed_updateBlock _ _ _ _ (Graph.scrubbed_of_removes g u))
    · exact ih _ bid u ht

theorem Graph.deleteInsnsPhase_preserves_scrubbed :
    ∀ (l : List Nat) (g : Graph) (bid u : Nat), g.scrubbed u →
      (g.deleteInsnsPhase bid l).scrubbed u := by
  intro l
  induction l with
  | nil => intro g bid u hs; exact hs
  | cons a t ih =>
    intro g bid u hs
    unfold Graph.deleteInsnsPhase
    rw [List.foldl_cons]
    exact ih _ bid u (Graph.scrubbed_updateBlock _ _ _ _
      (Graph.scrubbed_removeFromEnvironmentUsers _ _ _
        (Graph.scrubbed_removeAsUser _ _ _ hs)))

theorem Graph.deleteInsnsPhase_scrubs :
    ∀ (l : List Nat) (g : Graph) (bid : Nat), ∀ u ∈ l,
      (g.deleteInsnsPhase bid l).scrubbed u := by
  intro l
  induction l with
  | nil => intro g bid u hu; cases hu
  | cons a t ih =>
    intro g bid u hu
    unfold Graph.deleteInsnsPhase
    rw [List.foldl_cons]
    rcases List.mem_cons.mp hu with rfl | ht
    · exact Graph.deleteInsnsPhase_preserves_scrubbed t _ bid u
        (Graph.scrubbed_updateBlock _ _ _ _ (Graph.scrubbed_of_removes g u))
    · exact ih _ bid u ht

theorem Graph.unlinkSuccStep_insns (g : Graph) (bid j : Nat) :
    (g.unlinkSuccStep bid j).insns = g.insns := by
  unfold Graph.unlinkSuccStep
  cases g.block? bid with
  | none => rfl
  | some b =>
    simp only
    cases g.block? (b.successors.getD j 0) with
    | none => simp
    | some sb => by_cases hmem : bid ∈ sb.predecessors <;> simp [hmem]

theorem Graph.unlinkSuccessors_insns (g : Graph) (bid : Nat) :
    ∀ n, (g.unlinkSuccessors bid n).insns = g.insns := by
  intro n
  induction n generalizing g with
  | zero => rfl
  | succ j ih =>
    show ((g.unlinkSuccStep bid j).unlinkSuccessors bid j).insns = g.insns
    rw [ih, Graph.unlinkSuccStep_insns]



theorem Graph.deletePhisPhase_block_self :
    ∀ (l : List Nat) (g : Graph) (bid : Nat) (b : Block), g.block? bid = some b →
      (g.deletePhisPhase bid l).block? bid =
        some { b with phis := List.foldl (fun s i => s.erase i) b.phis l } := by
  intro l
  induction l with
  | nil =>
    intro g bid b hb
    simpa using hb
  | cons a t ih =>
    intro g bid b hb
    unfold Graph.deletePhisPhase
    rw [List.foldl_cons]
    have hstep : ((g.removeAsUser a).removeFromEnvironmentUsers a).block? bid = some b := hb
    have h1 := Graph.block?_updateBlock_self
      (fun bb => { bb with phis := bb.phis.erase a }) hstep
    exact ih _ bid _ h1

theorem Graph.deletePhisPhase_block_ne :
    ∀ (l : List Nat) (g : Graph) (bid c : Nat), c ≠ bid →
      (g.deletePhisPhase bid l).block? c = g.block? c := by
  intro l
  induction l with
  | nil => intro g bid c _; rfl
  | cons a t ih =>
    intro g bid c hc
    unfold Graph.deletePhisPhase
    rw [List.foldl_cons]
    have := ih (((g.removeAsUser a).removeFromEnvironmentUsers a).updateBlock bid
      (fun bb => { bb with phis := bb.phis.erase a })) bid c hc
    unfold Graph.deletePhisPhase at this
    rw [this, Graph.block?_updateBlock_ne _ _ _ _ (Ne.symm hc)]
    rfl

theorem Graph.deletePhisPhase_orderings :
    ∀ (l : List Nat) (g : Graph) (bid : Nat),
      (g.deletePhisPhase bid l).loops = g.loops ∧
      (g.deletePhisPhase bid l).reverse_post_order = g.reverse_post_order ∧
      (g.deletePhisPhase bid l).linear_order = g.linear_order := by
  intro l
  induction l with
  | nil => intro g bid; exact ⟨rfl, rfl, rfl⟩
  | cons a t ih =>
    intro g bid
    unfold Graph.deletePhisPhase
    rw [List.foldl_cons]
    have := ih (((g.removeAsUser a).removeFromEnvironmentUsers a).updateBlock bid
      (fun bb => { bb with phis := bb.phis.erase a })) bid
    unfold Graph.deletePhisPhase at this
    refine ⟨?_, ?_, ?_⟩
    · rw [this.1]; simp [Graph.removeAsUser, Graph.removeFromEnvironmentUsers, Graph.mapInsns]
    · rw [this.2.1]; simp [Graph.removeAsUser, Graph.removeFromEnvironmentUsers, Graph.mapInsns]
    · rw [this.2.2]; simp [Graph.removeAsUser, Graph.removeFromEnvironmentUsers, Graph.mapInsns]

theorem Graph.deleteInsnsPhase_block_self :
    ∀ (l : List Nat) (g : Graph) (bid : Nat) (b : Block), g.block? bid = some b →
      (g.deleteInsnsPhase bid l).block? bid =
        some { b with instructions := List.foldl (fun s i => s.erase i) b.instructions l } := by
  intro l
  induction l with
  | nil =>
    intro g bid b hb
    simpa using hb
  | cons a t ih =>
    intro g bid b hb
    unfold Graph.deleteInsnsPhase
    rw [List.foldl_cons]
    have hstep : ((g.removeAsUser a).removeFromEnvironmentUsers a).block? bid = some b := hb
    have h1 := Graph.block?_updateBlock_self
      (fun bb => { bb with instructions := bb.instructions.erase a }) hstep
    exact ih _ bid _ h1

theorem Graph.deleteInsnsPhase_block_ne :
    ∀ (l : List Nat) (g : Graph) (bid c : Nat), c ≠ bid →
      (g.deleteInsnsPhase bid l).block? c = g.block? c := by
  intro l
  induction l with
  | nil => intro g bid c _; rfl
  | cons a t ih =>
    intro g bid c hc
    unfold Graph.deleteInsnsPhase
    rw [List.foldl_cons]
    have := ih (((g.removeAsUser a).removeFromEnvironmentUsers a).updateBlock bid
      (fun bb => { bb with instructions := bb.instructions.erase a })) bid c hc
    unfold Graph.deleteInsnsPhase at this
    rw [this, Graph.block?_updateBlock_ne _ _ _ _ (Ne.symm hc)]
    rfl

theorem Graph.deleteInsnsPhase_orderings :
    ∀ (l : List Nat) (g : Graph) (bid : Nat),
      (g.deleteInsnsPhase bid l).loops = g.loops ∧
      (g.deleteInsnsPhase bid l).reverse_post_order = g.reverse_post_order ∧
      (g.deleteInsnsPhase bid l).linear_order = g.linear_order := by
  intro l
  induction l with
  | nil => intro g bid; exact ⟨rfl, rfl, rfl⟩
  | cons a t ih =>
    intro g bid
    unfold Graph.deleteInsnsPhase
    rw [List.foldl_cons]
    have := ih (((g.removeAsUser a).removeFromEnvironmentUsers a).updateBlock bid
      (fun bb => { bb with instructions := bb.instructions.erase a })) bid
    unfold Graph.deleteInsnsPhase at this
    refine ⟨?_, ?_, ?_⟩
    · rw [this.1]; simp [Graph.removeAsUser, Graph.removeFromEnvironmentUsers, Graph.mapInsns]
    · rw [this.2.1]; simp [Graph.removeAsUser, Graph.removeFromEnvironmentUsers, Graph.mapInsns]
    · rw [this.2.2]; simp [Graph.removeAsUser, Graph.removeFromEnvironmentUsers, Graph.mapInsns]

theorem foldl_erase_self : ∀ (l : List Nat), List.foldl (fun s i => s.erase i) l l = [] := by
  have haux : ∀ (l s : List Nat), s = l → List.foldl (fun s i => s.erase i) s l = [] := by
    intro l
    induction l with
    | nil => intro s hs; subst hs; rfl
    | cons a t ih =>
      intro s hs
      subst hs
      rw [List.foldl_cons, List.erase_cons_head]
      exact ih t rfl
  intro l
  exact haux l l rfl



theorem Graph.deleteBlockUnlink_spec (g : Graph) (bid : Nat) (b : Block)
    (hb : g.block? bid = some b) :
    (∃ bd, (g.deleteBlockUnlink bid).block? bid = some bd ∧
       bd.phis = [] ∧ bd.instructions = [] ∧ bd.successors = [] ∧ bd.predecessors = []) ∧
    (∀ s0, s0 ≠ bid → g.block? s0 = none → (g.deleteBlockUnlink bid).block? s0 = none) ∧
    (∀ s0 sb, s0 ≠ bid → g.block? s0 = some sb →
      ∃ sb', (g.deleteBlockUnlink bid).block? s0 = some sb' ∧
        sb'.successors = sb.successors ∧ sb'.phis = sb.phis ∧
        sb'.instructions = sb.instructions ∧ sb'.dominator = sb.dominator ∧
        sb'.dominated = sb.dominated ∧ sb'.loopInfo = sb.loopInfo ∧
        (∀ x, x ≠ bid → sb'.predecessors.count x = sb.predecessors.count x) ∧
        sb'.predecessors.count bid =
          sb.predecessors.count bid - b.successors.count s0) ∧
    (g.deleteBlockUnlink bid).loops = g.loops ∧
    (g.deleteBlockUnlink bid).reverse_post_order = g.reverse_post_order ∧
    (g.deleteBlockUnlink bid).linear_order = g.linear_order := by
  have hkey : g.deleteBlockUnlink bid =
      (((g.deletePhisPhase bid b.phis).deleteInsnsPhase bid b.instructions).unlinkSuccessors
        bid b.successors.length).updateBlock bid
        (fun bb => { bb with predecessors := [] }) := by
    unfold Graph.deleteBlockUnlink
    rw [hb]
  have hph := Graph.deletePhisPhase_block_self b.phis g bid b hb
  rw [foldl_erase_self] at hph
  have hin := Graph.deleteInsnsPhase_block_self b.instructions
    (g.deletePhisPhase bid b.phis) bid _ hph
  rw [show ({ b with phis := [] } : Block).instructions = b.instructions from rfl,
    foldl_erase_self] at hin
  have hbB : ((g.deletePhisPhase bid b.phis).deleteInsnsPhase bid b.instructions).block? bid =
      some { b with phis := [], instructions := [] } := hin
  obtain ⟨⟨b', hb', hb's, hb'p, hb'i⟩, hu_none, hu_some, hu_insns, hu_loops, hu_rpo, hu_lin⟩ :=
    Graph.unlinkSuccessors_spec b.successors.length
      ((g.deletePhisPhase bid b.phis).deleteInsnsPhase bid b.instructions) bid
      { b with phis := [], instructions := [] } hbB rfl
  have hphisne := Graph.deletePhisPhase_block_ne b.phis g bid
  have hinsne := Graph.deleteInsnsPhase_block_ne b.instructions
    (g.deletePhisPhase bid b.phis) bid
  refine ⟨⟨{ b' with predecessors := [] }, ?_, hb'p, hb'i, hb's, rfl⟩, ?_, ?_, ?_, ?_, ?_⟩
  · rw [hkey]
    exact Graph.block?_updateBlock_self _ hb'
  · intro s0 hs0 hnone
    rw [hkey, Graph.block?_updateBlock_ne _ _ _ _ (Ne.symm hs0)]
    refine hu_none s0 hs0 ?_
    rw [hinsne s0 hs0, hphisne s0 hs0]
    exact hnone
  · intro s0 sb hs0 hsome
    have hsome2 : ((g.deletePhisPhase bid b.phis).deleteInsnsPhase bid
        b.instructions).block? s0 = some sb := by
      rw [hinsne s0 hs0, hphisne s0 hs0]
      exact hsome
    obtain ⟨sb', hsb', h1, h2, h3, h4, h5, h6, h7, h8⟩ := hu_some s0 sb hs0 hsome2
    refine ⟨sb', ?_, h1, h2, h3, h4, h5, h6, h7, h8⟩
    rw [hkey, Graph.block?_updateBlock_ne _ _ _ _ (Ne.symm hs0)]
    exact hsb'
  · rw [hkey, Graph.updateBlock_loops, hu_loops,
      (Graph.deleteInsnsPhase_orderings _ _ _).1, (Graph.deletePhisPhase_orderings _ _ _).1]
  · rw [hkey, Graph.updateBlock_rpo, hu_rpo,
      (Graph.deleteInsnsPhase_orderings _ _ _).2.1,
      (Graph.deletePhisPhase_orderings _ _ _).2.1]
  · rw [hkey, Graph.updateBlock_linear, hu_lin,
      (Graph.deleteInsnsPhase_orderings _ _ _).2.2,
      (Graph.deletePhisPhase_orderings _ _ _).2.2]





theorem Graph.deleteBlock_block? (g : Graph) (bid : Nat) (b : Block)
    (hb : g.block? bid = some b) :
    ∀ c, (g.deleteBlock bid).block? c =
      if c = bid then none else (g.deleteBlockUnlink bid).block? c := by
  intro c
  have hblocks := Graph.deleteBlock_blocks g bid hb
  show (g.deleteBlock bid).blocks.getD c none = _
  rw [hblocks]
  by_cases hc : c = bid
  · subst hc
    rw [if_pos rfl]
    exact Graph.block?_clearBlock_self _ _
      (by rw [Graph.deleteBlockUnlink_length]; exact Graph.lt_length_of_block? hb)
  · rw [if_neg hc]
    exact Graph.block?_clearBlock_ne _ _ _ (Ne.symm hc)

theorem Graph.deleteBlock_preserves_invariants (g : Graph) (bid : Nat)
    (hL : g.liveConsistent) (hP : g.predsLive) :
    (g.deleteBlock bid).liveConsistent ∧ (g.deleteBlock bid).predsLive := by
  cases hgb : g.block? bid with
  | none =>
    have hid : g.deleteBlock bid = g := by
      unfold Graph.deleteBlock
      rw [hgb]
    rw [hid]
    exact ⟨hL, hP⟩
  | some b =>
    obtain ⟨-, hU_none, hU_some, -, -, -⟩ := Graph.deleteBlockUnlink_spec g bid b hgb
    have hdb := Graph.deleteBlock_block? g bid b hgb
    constructor
    · intro a c ga gc hga hgc
      have ha : a ≠ bid := by
        intro h
        rw [hdb a, if_pos h] at hga
        cases hga
      have hc : c ≠ bid := by
        intro h
        rw [hdb c, if_pos h] at hgc
        cases hgc
      rw [hdb a, if_neg ha] at hga
      rw [hdb c, if_neg hc] at hgc
      cases hga0 : g.block? a with
      | none => rw [hU_none a ha hga0] at hga; cases hga
      | some sa =>
        obtain ⟨sa', hsa', hsa's, -, -, -, -, -, hsa'cnt, -⟩ := hU_some a sa ha hga0
        rw [hsa'] at hga
        cases hga
        cases hgc0 : g.block? c with
        | none => rw [hU_none c hc hgc0] at hgc; cases hgc
        | some sc =>
          obtain ⟨sc', hsc', -, -, -, -, -, -, hsc'cnt, -⟩ := hU_some c sc hc hgc0
          rw [hsc'] at hgc
          cases hgc
          rw [hsa's, hsc'cnt a ha]
          exact hL a c sa sc hga0 hgc0
    · intro a ga hga p hp
      have ha : a ≠ bid := by
        intro h
        rw [hdb a, if_pos h] at hga
        cases hga
      rw [hdb a, if_neg ha] at hga
      cases hga0 : g.block? a with
      | none => rw [hU_none a ha hga0] at hga; cases hga
      | some sa =>
        obtain ⟨sa', hsa', -, -, -, -, -, -, hsa'cnt, hsa'cntb⟩ := hU_some a sa ha hga0
        rw [hsa'] at hga
        cases hga
        by_cases hpbid : p = bid
        · exfalso
          subst hpbid
          have hzero : ga.predecessors.count p = 0 := by
            rw [hsa'cntb]
            have hLab := hL p a b sa hgb hga0
            omega
          have hpos : 0 < ga.predecessors.count p := List.count_pos_iff.mpr hp
          omega
        · have hcnt : sa.predecessors.count p = ga.predecessors.count p :=
            (hsa'cnt p hpbid).symm
          have hpmem : p ∈ sa.predecessors := by
            have hpos : 0 < ga.predecessors.count p := List.count_pos_iff.mpr hp
            rw [← hcnt] at hpos
            exact List.count_pos_iff.mp hpos
          have hlive := hP a sa hga0 p hpmem
          cases hgp : g.block? p with
          | none => rw [hgp] at hlive; cases hlive
          | some sp =>
            obtain ⟨sp', hsp', -⟩ := hU_some p sp hpbid hgp
            rw [hdb p, if_neg hpbid, hsp']
            rfl



theorem Graph.deleteBlock_orderings (g : Graph) (bid : Nat) (b : Block)
    (hb : g.block? bid = some b) :
    (g.deleteBlock bid).reverse_post_order = g.reverse_post_order.erase bid ∧
    (0 < g.linear_order.length →
      (g.deleteBlock bid).linear_order = g.linear_order.erase bid) ∧
    (g.linear_order = [] → (g.deleteBlock bid).linear_order = []) ∧
    (g.deleteBlock bid).insns = (g.deleteBlockUnlink bid).insns := by
  obtain ⟨-, -, -, -, hu_rpo, hu_lin⟩ := Graph.deleteBlockUnlink_spec g bid b hb
  unfold Graph.deleteBlock
  rw [hb]
  dsimp only
  split
  · refine ⟨?_, fun _ => ?_, fun hnil => ?_, rfl⟩
    · show (g.deleteBlockUnlink bid).reverse_post_order.erase bid = _
      rw [hu_rpo]
    · show (g.deleteBlockUnlink bid).linear_order.erase bid = _
      rw [hu_lin]
    · show (g.deleteBlockUnlink bid).linear_order.erase bid = _
      rw [hu_lin, hnil]
      rfl
  · rename_i hfalse
    refine ⟨?_, fun hpos => ?_, fun hnil => ?_, rfl⟩
    · show (g.deleteBlockUnlink bid).reverse_post_order.erase bid = _
      rw [hu_rpo]
    · exfalso
      refine hfalse ?_
      show 0 < (g.deleteBlockUnlink bid).linear_order.length
      rw [hu_lin]
      exact hpos
    · show (g.deleteBlockUnlink bid).linear_order = []
      rw [hu_lin, hnil]


/-- C3: after `DeleteBlock(B)`, every phi and every ordinary instruction of
`B` has been detached from all use-lists and environment-use lists; `B`'s
phi and instruction sequences are empty (observable on the dangling block
record just before the tombstone); `B`'s block-table slot is a tombstone;
`B` is absent from the reverse-post-order and linear-order sequences, and
the linear-order removal is a no-op when that ordering is empty. -/
theorem deleteBlock_detaches (g : Graph) (bid : Nat) (b : Block)
    (hb : g.block? bid = some b)
    (hrpo : g.reverse_post_order.count bid ≤ 1)
    (hlin : g.linear_order.count bid ≤ 1) :
    (∀ u ∈ b.phis ++ b.instructions, (g.deleteBlock bid).scrubbed u) ∧
    (∃ bd, (g.deleteBlockUnlink bid).block? bid = some bd ∧ bd.phis = [] ∧
       bd.instructions = []) ∧
    (g.deleteBlock bid).block? bid = none ∧
    bid ∉ (g.deleteBlock bid).reverse_post_order ∧
    bid ∉ (g.deleteBlock bid).linear_order ∧
    (g.linear_order = [] → (g.deleteBlock bid).linear_order = g.linear_order) := by
  obtain ⟨⟨bd, hbd, hbdp, hbdi, -, -⟩, -, -, -, -, -⟩ := Graph.deleteBlockUnlink_spec g bid b hb
  obtain ⟨ho_rpo, ho_lin, ho_nil, ho_insns⟩ := Graph.deleteBlock_orderings g bid b hb
  have hunlink_scrub : ∀ u, ((g.deletePhisPhase bid b.phis).deleteInsnsPhase bid
      b.instructions).scrubbed u → (g.deleteBlock bid).scrubbed u := by
    intro u hs
    have h1 : (g.deleteBlockUnlink bid).scrubbed u := by
      have hkeyU : g.deleteBlockUnlink bid =
          (((g.deletePhisPhase bid b.phis).deleteInsnsPhase bid
            b.instructions).unlinkSuccessors bid b.successors.length).updateBlock bid
            (fun bb => { bb with predecessors := [] }) := by
        unfold Graph.deleteBlockUnlink
        rw [hb]
      rw [hkeyU]
      exact Graph.scrubbed_updateBlock _ _ _ _
        (Graph.scrubbed_of_insns_eq (Graph.unlinkSuccessors_insns _ _ _) u hs)
    exact Graph.scrubbed_of_insns_eq ho_insns u h1
  refine ⟨?_, ⟨bd, hbd, hbdp, hbdi⟩, Graph.deleteBlock_tombstone g bid hb, ?_, ?_, ?_⟩
  · intro u hu
    rcases List.mem_append.mp hu with hphi | hins
    · refine hunlink_scrub u ?_
      exact Graph.deleteInsnsPhase_preserves_scrubbed _ _ _ _
        (Graph.deletePhisPhase_scrubs b.phis g bid u hphi)
    · refine hunlink_scrub u ?_
      exact Graph.deleteInsnsPhase_scrubs b.instructions _ bid u hins
  · rw [ho_rpo]
    intro hmem
    have hpos : 0 < (g.reverse_post_order.erase bid).count bid := List.count_pos_iff.mpr hmem
    have hcnt := List.count_erase_self bid g.reverse_post_order
    omega
  · cases hlen : g.linear_order with
    | nil =>
      rw [ho_nil hlen]
      intro hmem
      cases hmem
    | cons x t =>
      have hpos : 0 < g.linear_order.length := by rw [hlen]; simp
      rw [ho_lin hpos]
      intro hmem
      have hposc : 0 < (g.linear_order.erase bid).count bid := List.count_pos_iff.mpr hmem
      have hcnt := List.count_erase_self bid g.linear_order
      omega
  · intro hnil
    rw [ho_nil hnil, hnil]

/-- C4 (amended): for every finite sequence of `DeleteBlock` operations on
a graph whose blocks initially have mutually consistent (edge-paired)
linkage with all predecessor entries naming live blocks, every surviving
block pair remains mutually consistent and no surviving block's
predecessor list mentions a deleted block.  (A surviving block's successor
list may still mention a deleted block: `DeleteBlock` clears only its own
predecessor links — see the counterexample.) -/
theorem deleteBlock_sequence_consistency (g : Graph) (bids : List Nat)
    (hL : g.liveConsistent) (hP : g.predsLive) :
    (bids.foldl Graph.deleteBlock g).liveConsistent ∧
    (bids.foldl Graph.deleteBlock g).predsLive := by
  induction bids generalizing g with
  | nil => exact ⟨hL, hP⟩
  | cons bid t ih =>
    rw [List.foldl_cons]
    obtain ⟨hL1, hP1⟩ := Graph.deleteBlock_preserves_invariants g bid hL hP
    exact ih _ hL1 hP1

theorem twoBlockEdgeGraph_liveConsistent : twoBlockEdgeGraph.liveConsistent := by
  intro a c ga gc hga hgc
  have ha2 : a < 2 := Graph.lt_length_of_block? hga
  have hc2 : c < 2 := Graph.lt_length_of_block? hgc
  interval_cases a <;> interval_cases c <;> (cases hga; cases hgc; decide)

theorem twoBlockEdgeGraph_predsLive : twoBlockEdgeGraph.predsLive := by
  intro a ga hga p hp
  have ha2 : a < 2 := Graph.lt_length_of_block? hga
  interval_cases a
  · injection hga with hga'
    subst hga'
    simp [twoBlockEdgeGraph, emptyBlock] at hp
  · injection hga with hga'
    subst hga'
    have : p = 0 := by
      simpa [twoBlockEdgeGraph, emptyBlock] using hp
    subst this
    rfl

/-- Counterexample for C4 as stated: deleting block 1 of the mutually
consistent two-block graph 0 → 1 leaves the surviving block 0's successor
list still mentioning the deleted block 1. -/
theorem deleteBlock_dangling_successor_counterexample :
    twoBlockEdgeGraph.liveConsistent ∧ twoBlockEdgeGraph.predsLive ∧
    ((twoBlockEdgeGraph.deleteBlock 1).block? 0).map Block.successors = some [1] ∧
    (twoBlockEdgeGraph.deleteBlock 1).block? 1 = none := by
  exact ⟨twoBlockEdgeGraph_liveConsistent, twoBlockEdgeGraph_predsLive, rfl, rfl⟩

/-- Witness for C4 (amended) at the two-block graph with one deletion. -/
theorem deleteBlock_sequence_consistency_witness :
    (([1] : List Nat).foldl Graph.deleteBlock twoBlockEdgeGraph).liveConsistent ∧
    (([1] : List Nat).foldl Graph.deleteBlock twoBlockEdgeGraph).predsLive :=
  deleteBlock_sequence_consistency twoBlockEdgeGraph [1]
    twoBlockEdgeGraph_liveConsistent twoBlockEdgeGraph_predsLive


/-- Witness for C3: deleting block 0 (phi 30, instructions 31 and 32)
scrubs their use-list and environment entries from instruction 33,
tombstones the slot and drops 0 from the orderings. -/
theorem deleteBlock_detaches_witness :
    (deleteScenarioGraph.deleteBlock 0).scrubbed 31 ∧
    ((deleteScenarioGraph.deleteBlock 0).insn? 33).map Instruction.uses = some [(40, 1)] ∧
    ((deleteScenarioGraph.deleteBlock 0).insn? 33).map Instruction.envUses = some [41] ∧
    (deleteScenarioGraph.deleteBlock 0).block? 0 = none ∧
    (deleteScenarioGraph.deleteBlock 0).reverse_post_order = [1] := by
  have h := deleteBlock_detaches deleteScenarioGraph 0
    { emptyBlock with phis := [30], instructions := [31, 32], successors := [1] }
    rfl (by decide) (by decide)
  exact ⟨h.1 31 (by decide), by rfl, by rfl, h.2.2.1, by rfl⟩

end GraphX86
